import Mathlib

/-!
Formal model of the configuration-parser core of `access-config-utils`
(`src/access/config/parser.py` and `src/access/config/parser_types.py`).

Modelling conventions:
* A Lark parse tree is modelled by `PNode`: interior rule nodes carry a rule
  name (`data`) and an ordered list of children; leaves are tokens carrying
  their lexeme.  Parent back-references (added in the source by the
  `AddParent` visitor) are modelled by locating nodes through root paths
  (lists of child indices): the parent of the node at path `p ++ [i]` is the
  node at `p`, which is exactly the pointer `AddParent` installs on a tree
  without shared children.
* In-place mutation of the tree and of the two dictionaries of `Config` is
  modelled by explicit state passing.  An operation that can raise returns
  the state as it is when the exception propagates, paired with
  `Option PyErr`; `none` means normal return.  Python dictionaries
  (insertion-ordered, unique string keys) are modelled by association lists
  with `pySet` / `pyDel` implementing `d[k] = v` / `del d[k]`.
* Python `float` objects are modelled by the string `str()` produces for
  them (the only way the code under study consumes a float is type checking
  and `str(value)` inside `_float_to_str`); `complex` by its two component
  renderings.  Python string methods used by the source (`upper`, `lower`,
  `replace` with one-character arguments, `strip`, `split`, slicing) are
  re-implemented over character lists so that every definition evaluates.
-/

/-! ### Python string primitives -/

/-- Model of Python `str.upper` (ASCII case mapping suffices for the keys and
lexemes handled here). -/
def pyUpper (s : String) : String := String.mk (s.data.map Char.toUpper)

/-- Model of Python `str.lower`. -/
def pyLower (s : String) : String := String.mk (s.data.map Char.toLower)

/-- Model of Python `str.replace(old, new)` for one-character `old`/`new`,
the only form the source uses. -/
def replaceChar (s : String) (c r : Char) : String :=
  String.mk (s.data.map (fun x => if x = c then r else x))

/-- Model of Python `str.startswith`. -/
def strStarts (s p : String) : Bool := p.data.isPrefixOf s.data

/-- Model of Python `str.strip("()")`: drop the characters `(` and `)` from
both ends. -/
def stripParens (s : String) : String :=
  let isPar : Char → Bool := fun c => c = '(' || c = ')'
  String.mk (((s.data.dropWhile isPar).reverse.dropWhile isPar).reverse)

/-- Helper for `splitComma`. -/
def splitCommaAux : List Char → List Char → List (List Char)
  | [], acc => [acc.reverse]
  | ',' :: rest, acc => acc.reverse :: splitCommaAux rest []
  | c :: rest, acc => splitCommaAux rest (c :: acc)

/-- Model of Python `str.split(",")`. -/
def splitComma (s : String) : List String :=
  (splitCommaAux s.data []).map String.mk

/-- Strip leading/trailing spaces (Python `float`/`int` accept surrounding
whitespace in literals). -/
def trimSpaces (s : String) : String :=
  let isSp : Char → Bool := fun c => c = ' '
  String.mk (((s.data.dropWhile isSp).reverse.dropWhile isSp).reverse)

/-- Decimal digits of a natural number, with fuel to keep the recursion
structural (`n + 1` units always suffice since `n / 10 < n`). -/
def natDigitsAux : Nat → Nat → List Char
  | 0, _ => []
  | f + 1, n =>
    if n < 10 then [Char.ofNat (48 + n)]
    else natDigitsAux f (n / 10) ++ [Char.ofNat (48 + n % 10)]

/-- Decimal digits of a natural number. -/
def natDigits (n : Nat) : List Char := natDigitsAux (n + 1) n

/-- Model of Python `str(n)` for an `int`. -/
def pyStrOfInt (i : Int) : String :=
  match i with
  | Int.ofNat n => String.mk (natDigits n)
  | Int.negSucc n => String.mk ('-' :: natDigits (n + 1))

/-- Numeric value of a non-empty all-digit character list. -/
def digitsVal (cs : List Char) : Option Nat :=
  if cs ≠ [] ∧ cs.all Char.isDigit then
    some (cs.foldl (fun a c => a * 10 + (c.toNat - 48)) 0)
  else Option.none

/-- Model of Python `int(token)` on the well-formed integer lexemes the
grammar produces (optional sign followed by digits); other inputs, which the
grammar never yields, are mapped to 0. -/
def pyIntOfString (s : String) : Int :=
  match s.data with
  | '-' :: rest => -(Int.ofNat ((digitsVal rest).getD 0))
  | '+' :: rest => Int.ofNat ((digitsVal rest).getD 0)
  | cs => Int.ofNat ((digitsVal cs).getD 0)

/-- Model of constructing a Python float from a literal.  A float is carried
as the string `str()` renders it to; the renormalisation Python applies when
parsing (`str(float("1.50")) = "1.5"`) is not modelled, as no claim depends
on the rendering of a float obtained from parsing — only floats supplied by
the caller, whose rendering is given directly, reach `_float_to_str`. -/
def pyFloatOfLit (lit : String) : String := trimSpaces lit

/-- ASCII model of Python `str.isidentifier` (the keys and identifier values
handled by the grammars are ASCII). -/
def pyIsIdentifier (s : String) : Bool :=
  match s.data with
  | [] => false
  | c :: cs => (c.isAlpha || c = '_') && cs.all (fun d => d.isAlphanum || d = '_')

/-! ### Python values and errors -/

/-- Model of the Python values that can appear in a `Config`: `None`, the
scalar types checked by the registry handlers, lists, and dictionaries
(which includes `Config` itself — a `dict` subclass — and `ConfigList`,
a `list` subclass, for the purposes of every `isinstance` test in the
source).  A nested `Config` stored under a block key is modelled by the
`dict` marker; the nested document itself is a separate `Doc` built from
the block subtree.  Floats are carried as their `str()` rendering. -/
inductive PyValue where
  | none
  | bool (b : Bool)
  | int (n : Int)
  | float (r : String)
  | complex (re im : String)
  | str (s : String)
  | path (s : String)
  | list (xs : List PyValue)
  | dict
  deriving Repr

mutual

/-- Structural equality on `PyValue` (Python `==` is not needed by the
source on values; this equality only backs the Lean `DecidableEq`). -/
def PyValue.beq : PyValue → PyValue → Bool
  | .none, .none => true
  | .bool a, .bool b => a == b
  | .int a, .int b => a == b
  | .float a, .float b => a == b
  | .complex a b, .complex a' b' => a == a' && b == b'
  | .str a, .str b => a == b
  | .path a, .path b => a == b
  | .list xs, .list ys => PyValue.beqList xs ys
  | .dict, .dict => true
  | _, _ => false

/-- Pointwise `PyValue.beq` on lists. -/
def PyValue.beqList : List PyValue → List PyValue → Bool
  | [], [] => true
  | x :: xs, y :: ys => PyValue.beq x y && PyValue.beqList xs ys
  | [], _ :: _ => false
  | _ :: _, [] => false

end

mutual

/-- Soundness of `PyValue.beq`. -/
def PyValue.eq_of_beq : (a b : PyValue) → PyValue.beq a b = true → a = b
  | .none, .none => fun _ => rfl
  | .bool a, .bool b => fun h => by
      simp only [PyValue.beq, beq_iff_eq] at h; rw [h]
  | .int a, .int b => fun h => by
      simp only [PyValue.beq, beq_iff_eq] at h; rw [h]
  | .float a, .float b => fun h => by
      simp only [PyValue.beq, beq_iff_eq] at h; rw [h]
  | .complex a b, .complex a' b' => fun h => by
      simp only [PyValue.beq, Bool.and_eq_true, beq_iff_eq] at h
      rw [h.1, h.2]
  | .str a, .str b => fun h => by
      simp only [PyValue.beq, beq_iff_eq] at h; rw [h]
  | .path a, .path b => fun h => by
      simp only [PyValue.beq, beq_iff_eq] at h; rw [h]
  | .list xs, .list ys => fun h => by
      simp only [PyValue.beq] at h
      rw [PyValue.eqList_of_beq xs ys h]
  | .dict, .dict => fun _ => rfl
  | .none, .bool _ => fun h => by simp [PyValue.beq] at h
  | .none, .int _ => fun h => by simp [PyValue.beq] at h
  | .none, .float _ => fun h => by simp [PyValue.beq] at h
  | .none, .complex _ _ => fun h => by simp [PyValue.beq] at h
  | .none, .str _ => fun h => by simp [PyValue.beq] at h
  | .none, .path _ => fun h => by simp [PyValue.beq] at h
  | .none, .list _ => fun h => by simp [PyValue.beq] at h
  | .none, .dict => fun h => by simp [PyValue.beq] at h
  | .bool _, .none => fun h => by simp [PyValue.beq] at h
  | .bool _, .int _ => fun h => by simp [PyValue.beq] at h
  | .bool _, .float _ => fun h => by simp [PyValue.beq] at h
  | .bool _, .complex _ _ => fun h => by simp [PyValue.beq] at h
  | .bool _, .str _ => fun h => by simp [PyValue.beq] at h
  | .bool _, .path _ => fun h => by simp [PyValue.beq] at h
  | .bool _, .list _ => fun h => by simp [PyValue.beq] at h
  | .bool _, .dict => fun h => by simp [PyValue.beq] at h
  | .int _, .none => fun h => by simp [PyValue.beq] at h
  | .int _, .bool _ => fun h => by simp [PyValue.beq] at h
  | .int _, .float _ => fun h => by simp [PyValue.beq] at h
  | .int _, .complex _ _ => fun h => by simp [PyValue.beq] at h
  | .int _, .str _ => fun h => by simp [PyValue.beq] at h
  | .int _, .path _ => fun h => by simp [PyValue.beq] at h
  | .int _, .list _ => fun h => by simp [PyValue.beq] at h
  | .int _, .dict => fun h => by simp [PyValue.beq] at h
  | .float _, .none => fun h => by simp [PyValue.beq] at h
  | .float _, .bool _ => fun h => by simp [PyValue.beq] at h
  | .float _, .int _ => fun h => by simp [PyValue.beq] at h
  | .float _, .complex _ _ => fun h => by simp [PyValue.beq] at h
  | .float _, .str _ => fun h => by simp [PyValue.beq] at h
  | .float _, .path _ => fun h => by simp [PyValue.beq] at h
  | .float _, .list _ => fun h => by simp [PyValue.beq] at h
  | .float _, .dict => fun h => by simp [PyValue.beq] at h
  | .complex _ _, .none => fun h => by simp [PyValue.beq] at h
  | .complex _ _, .bool _ => fun h => by simp [PyValue.beq] at h
  | .complex _ _, .int _ => fun h => by simp [PyValue.beq] at h
  | .complex _ _, .float _ => fun h => by simp [PyValue.beq] at h
  | .complex _ _, .str _ => fun h => by simp [PyValue.beq] at h
  | .complex _ _, .path _ => fun h => by simp [PyValue.beq] at h
  | .complex _ _, .list _ => fun h => by simp [PyValue.beq] at h
  | .complex _ _, .dict => fun h => by simp [PyValue.beq] at h
  | .str _, .none => fun h => by simp [PyValue.beq] at h
  | .str _, .bool _ => fun h => by simp [PyValue.beq] at h
  | .str _, .int _ => fun h => by simp [PyValue.beq] at h
  | .str _, .float _ => fun h => by simp [PyValue.beq] at h
  | .str _, .complex _ _ => fun h => by simp [PyValue.beq] at h
  | .str _, .path _ => fun h => by simp [PyValue.beq] at h
  | .str _, .list _ => fun h => by simp [PyValue.beq] at h
  | .str _, .dict => fun h => by simp [PyValue.beq] at h
  | .path _, .none => fun h => by simp [PyValue.beq] at h
  | .path _, .bool _ => fun h => by simp [PyValue.beq] at h
  | .path _, .int _ => fun h => by simp [PyValue.beq] at h
  | .path _, .float _ => fun h => by simp [PyValue.beq] at h
  | .path _, .complex _ _ => fun h => by simp [PyValue.beq] at h
  | .path _, .str _ => fun h => by simp [PyValue.beq] at h
  | .path _, .list _ => fun h => by simp [PyValue.beq] at h
  | .path _, .dict => fun h => by simp [PyValue.beq] at h
  | .list _, .none => fun h => by simp [PyValue.beq] at h
  | .list _, .bool _ => fun h => by simp [PyValue.beq] at h
  | .list _, .int _ => fun h => by simp [PyValue.beq] at h
  | .list _, .float _ => fun h => by simp [PyValue.beq] at h
  | .list _, .complex _ _ => fun h => by simp [PyValue.beq] at h
  | .list _, .str _ => fun h => by simp [PyValue.beq] at h
  | .list _, .path _ => fun h => by simp [PyValue.beq] at h
  | .list _, .dict => fun h => by simp [PyValue.beq] at h
  | .dict, .none => fun h => by simp [PyValue.beq] at h
  | .dict, .bool _ => fun h => by simp [PyValue.beq] at h
  | .dict, .int _ => fun h => by simp [PyValue.beq] at h
  | .dict, .float _ => fun h => by simp [PyValue.beq] at h
  | .dict, .complex _ _ => fun h => by simp [PyValue.beq] at h
  | .dict, .str _ => fun h => by simp [PyValue.beq] at h
  | .dict, .path _ => fun h => by simp [PyValue.beq] at h
  | .dict, .list _ => fun h => by simp [PyValue.beq] at h

/-- Soundness of `PyValue.beqList`. -/
def PyValue.eqList_of_beq : (a b : List PyValue) → PyValue.beqList a b = true → a = b
  | [], [] => fun _ => rfl
  | x :: xs, y :: ys => fun h => by
      simp only [PyValue.beqList, Bool.and_eq_true] at h
      rw [PyValue.eq_of_beq x y h.1, PyValue.eqList_of_beq xs ys h.2]
  | [], _ :: _ => fun h => by simp [PyValue.beqList] at h
  | _ :: _, [] => fun h => by simp [PyValue.beqList] at h

end

mutual

/-- Reflexivity of `PyValue.beq`. -/
def PyValue.beq_self : (a : PyValue) → PyValue.beq a a = true
  | .none => rfl
  | .bool a => by simp [PyValue.beq]
  | .int a => by simp [PyValue.beq]
  | .float a => by simp [PyValue.beq]
  | .complex a b => by simp [PyValue.beq]
  | .str a => by simp [PyValue.beq]
  | .path a => by simp [PyValue.beq]
  | .list xs => by simp only [PyValue.beq]; exact PyValue.beqList_self xs
  | .dict => rfl

/-- Reflexivity of `PyValue.beqList`. -/
def PyValue.beqList_self : (a : List PyValue) → PyValue.beqList a a = true
  | [] => rfl
  | x :: xs => by
      simp only [PyValue.beqList, Bool.and_eq_true]
      exact ⟨PyValue.beq_self x, PyValue.beqList_self xs⟩

end

instance : DecidableEq PyValue := fun a b =>
  if h : PyValue.beq a b = true then .isTrue (PyValue.eq_of_beq a b h)
  else .isFalse (fun he => h (he ▸ PyValue.beq_self a))

/-- Model of the Python exceptions raised by the parser core.
`blockAssignError` models the `SyntaxError` raised for whole-block
reassignment. -/
inductive PyErr where
  | keyError (msg : String)
  | typeError (msg : String)
  | valueError (msg : String)
  | blockAssignError (msg : String)
  | indexError (msg : String)
  | attributeError (msg : String)
  deriving DecidableEq, Repr

/-! ### The value-type handler registry (`parser_types.py`) -/

/-- Scan of `_float_to_str`'s `for c in token` loop: the first character of
the token that is one of `D`, `d`, `E`, `e`. -/
def findMarker : List Char → Option Char
  | [] => Option.none
  | c :: cs => if c ∈ (['D', 'd', 'E', 'e'] : List Char) then some c else findMarker cs

/-- Model of `_float_to_str(value, token)`.  The first argument is the
Python rendering `str(value)` of the float (floats are modelled by that
rendering). -/
def float_to_str (value : String) (token : String) : String :=
  match findMarker token.data with
  | some c => replaceChar value 'e' c
  | Option.none => value

/-- Model of `ValueTypeHandler`: the bundled type-check / parse / serialise
operations of one value type.  `to_token` always returns the string stored
into the token; for the `integer` handler the source stores the `int`
itself, which the reconstructor renders with `str`, modelled here by
`pyStrOfInt`.  Each `to_token` is only ever invoked on a value that passed
`type_check`; on other variants it returns a junk value. -/
structure ValueTypeHandler where
  type_check : PyValue → Bool
  from_token : String → PyValue
  to_token : PyValue → String → String

/-- Model of `VALUE_TYPE_HANDLER_REGISTRY`. -/
def VALUE_TYPE_HANDLER_REGISTRY : List (String × ValueTypeHandler) := [
  ("logical",
    { type_check := fun v => match v with | .bool _ => true | _ => false,
      from_token := fun tok => .bool (pyLower tok == ".true."),
      to_token := fun v _tok => match v with
        | .bool b => if b then ".true." else ".false."
        | _ => "" }),
  ("bool",
    { type_check := fun v => match v with | .bool _ => true | _ => false,
      from_token := fun tok => .bool (tok == "True"),
      to_token := fun v _tok => match v with
        | .bool b => if b then "True" else "False"
        | _ => "" }),
  ("integer",
    { type_check := fun v => match v with | .int _ => true | _ => false,
      from_token := fun tok => .int (pyIntOfString tok),
      to_token := fun v _tok => match v with
        | .int n => pyStrOfInt n
        | _ => "" }),
  ("float",
    { type_check := fun v => match v with | .float _ => true | _ => false,
      from_token := fun tok => .float (pyFloatOfLit tok),
      to_token := fun v tok => match v with
        | .float r => float_to_str r tok
        | _ => "" }),
  ("double",
    { type_check := fun v => match v with | .float _ => true | _ => false,
      from_token := fun tok =>
        .float (pyFloatOfLit (replaceChar (replaceChar tok 'D' 'E') 'd' 'e')),
      to_token := fun v tok => match v with
        | .float r => float_to_str r tok
        | _ => "" }),
  ("complex",
    { type_check := fun v => match v with | .complex _ _ => true | _ => false,
      from_token := fun tok =>
        let parts := splitComma (stripParens tok)
        .complex (pyFloatOfLit (parts.headD "")) (pyFloatOfLit ((parts.get? 1).getD "")),
      to_token := fun v tok => match v with
        | .complex re im =>
          "(" ++ float_to_str re tok ++ ", " ++ float_to_str im tok ++ ")"
        | _ => "" }),
  ("double_complex",
    { type_check := fun v => match v with | .complex _ _ => true | _ => false,
      from_token := fun tok =>
        let parts := splitComma (stripParens (replaceChar (replaceChar tok 'D' 'E') 'd' 'e'))
        .complex (pyFloatOfLit (parts.headD "")) (pyFloatOfLit ((parts.get? 1).getD "")),
      to_token := fun v tok => match v with
        | .complex re im =>
          "(" ++ float_to_str re tok ++ ", " ++ float_to_str im tok ++ ")"
        | _ => "" }),
  ("identifier",
    { type_check := fun v => match v with | .str s => pyIsIdentifier s | _ => false,
      from_token := fun tok => .str tok,
      to_token := fun v _tok => match v with | .str s => s | _ => "" }),
  ("string",
    { type_check := fun v => match v with | .str _ => true | _ => false,
      from_token := fun tok => .str (String.mk (tok.data.drop 1).dropLast),
      to_token := fun v tok => match v with
        | .str s =>
          String.mk [(tok.data.headD '\'')] ++ s ++ String.mk [(tok.data.getLast?.getD '\'')]
        | _ => "" }),
  ("path",
    { type_check := fun v => match v with | .path _ => true | _ => false,
      from_token := fun tok => .path tok,
      to_token := fun v _tok => match v with | .path s => s | _ => "" })]

/-! ### Parse trees -/

/-- Model of a Lark parse tree: `tree` nodes carry the rule name (`data`)
and the ordered children; `token` leaves carry the lexeme. -/
inductive PNode where
  | tree (data : String) (children : List PNode)
  | token (s : String)
  deriving Repr

mutual

/-- Structural equality on trees, as implemented by Lark's `Tree.__eq__`
(and `Token` equality, which is string equality); this is the equality
`list.remove` uses when a rule node is detached in `__delitem__`. -/
def PNode.beq : PNode → PNode → Bool
  | .tree d1 cs1, .tree d2 cs2 => d1 == d2 && PNode.beqChildren cs1 cs2
  | .token s1, .token s2 => s1 == s2
  | .tree _ _, .token _ => false
  | .token _, .tree _ _ => false

/-- Pointwise `PNode.beq` on child lists. -/
def PNode.beqChildren : List PNode → List PNode → Bool
  | [], [] => true
  | c :: cs, d :: ds => PNode.beq c d && PNode.beqChildren cs ds
  | [], _ :: _ => false
  | _ :: _, [] => false

end

mutual

/-- Soundness of `PNode.beq`. -/
def PNode.eq_of_beq : (a b : PNode) → PNode.beq a b = true → a = b
  | .tree d1 cs1, .tree d2 cs2 => fun h => by
      simp only [PNode.beq, Bool.and_eq_true, beq_iff_eq] at h
      rw [h.1, PNode.eqChildren_of_beq cs1 cs2 h.2]
  | .token s1, .token s2 => fun h => by
      simp only [PNode.beq, beq_iff_eq] at h
      rw [h]
  | .tree _ _, .token _ => fun h => by simp [PNode.beq] at h
  | .token _, .tree _ _ => fun h => by simp [PNode.beq] at h

/-- Soundness of `PNode.beqChildren`. -/
def PNode.eqChildren_of_beq : (a b : List PNode) → PNode.beqChildren a b = true → a = b
  | [], [] => fun _ => rfl
  | c :: cs, d :: ds => fun h => by
      simp only [PNode.beqChildren, Bool.and_eq_true] at h
      rw [PNode.eq_of_beq c d h.1, PNode.eqChildren_of_beq cs ds h.2]
  | [], _ :: _ => fun h => by simp [PNode.beqChildren] at h
  | _ :: _, [] => fun h => by simp [PNode.beqChildren] at h

end

mutual

/-- Reflexivity of `PNode.beq`. -/
def PNode.beq_self : (a : PNode) → PNode.beq a a = true
  | .tree d cs => by
      simp only [PNode.beq, Bool.and_eq_true, beq_iff_eq]
      exact ⟨trivial, PNode.beqChildren_self cs⟩
  | .token s => by simp [PNode.beq]

/-- Reflexivity of `PNode.beqChildren`. -/
def PNode.beqChildren_self : (a : List PNode) → PNode.beqChildren a a = true
  | [] => rfl
  | c :: cs => by
      simp only [PNode.beqChildren, Bool.and_eq_true]
      exact ⟨PNode.beq_self c, PNode.beqChildren_self cs⟩

end

instance : DecidableEq PNode := fun a b =>
  if h : PNode.beq a b = true then .isTrue (PNode.eq_of_beq a b h)
  else .isFalse (fun he => h (he ▸ PNode.beq_self a))

/-- Node addressed by a path of child indices from the root (tokens have no
children, so any non-empty path below a token dangles). -/
def nodeAt : PNode → List Nat → Option PNode
  | n, [] => some n
  | PNode.tree _ cs, i :: p =>
    match cs.get? i with
    | some c => nodeAt c p
    | Option.none => Option.none
  | PNode.token _, _ :: _ => Option.none

/-- Replace the `i`-th element of a child list by `f` of it. -/
def modifyChild : List PNode → Nat → (PNode → PNode) → List PNode
  | [], _, _ => []
  | c :: rest, 0, f => f c :: rest
  | c :: rest, Nat.succ i, f => c :: modifyChild rest i f

/-- In-place mutation of the node at a path, modelled functionally. -/
def modifyAt : PNode → List Nat → (PNode → PNode) → PNode
  | n, [], f => f n
  | PNode.tree d cs, i :: p, f => PNode.tree d (modifyChild cs i (fun c => modifyAt c p f))
  | PNode.token s, _ :: _, _ => PNode.token s

/-! ### Python dictionaries -/

/-- A Python dictionary with string keys: an insertion-ordered association
list with unique keys. -/
abbrev PyDict (α : Type) := List (String × α)

/-- Model of `d[k]` / `d.get(k)` as an `Option`. -/
def pyLookup {α : Type} (k : String) : PyDict α → Option α
  | [] => Option.none
  | (k', v) :: rest => if k = k' then some v else pyLookup k rest

/-- Model of `k in d`. -/
def pyHasKey {α : Type} (d : PyDict α) (k : String) : Bool := (pyLookup k d).isSome

/-- Model of `d[k] = v`: overwrite in place if the key exists (keeping its
position), otherwise append at the end. -/
def pySet {α : Type} : PyDict α → String → α → PyDict α
  | [], k, v => [(k, v)]
  | (k', v') :: rest, k, v =>
    if k' = k then (k', v) :: rest else (k', v') :: pySet rest k v

/-- Model of `del d[k]`. -/
def pyDel {α : Type} : PyDict α → String → PyDict α
  | [], _ => []
  | (k', v') :: rest, k => if k' = k then pyDel rest k else (k', v') :: pyDel rest k

/-- Iteration order over a dictionary's keys. -/
def pyKeys {α : Type} (d : PyDict α) : List String := d.map Prod.fst

/-! ### The `Config` document (`parser.py`) -/

/-- Model of the per-key parse-tree reference stored in `Config._refs`:
either a single node (scalar value node, `key_null` rule node, or `block`
node) or a Python list of value nodes for a `key_list`. -/
inductive Ref where
  | one (p : List Nat)
  | many (ps : List (List Nat))
  deriving DecidableEq, Repr

/-- Model of a `Config` instance: the parse (sub)tree it owns, the dict of
typed values (`dict` contents of the object itself), the dict of tree
references (`_refs`), and the case-sensitivity flag. -/
structure Doc where
  tree : PNode
  data : PyDict PyValue
  refs : PyDict Ref
  caseSensitive : Bool
  deriving DecidableEq, Repr

/-- Model of `Config._normalize_key`. -/
def normalizeKey (caseSensitive : Bool) (key : String) : String :=
  if caseSensitive then key else pyUpper key

/-- Registry lookup `VALUE_TYPE_HANDLER_REGISTRY.get(name)`. -/
def registryGet (name : String) : Option ValueTypeHandler :=
  pyLookup name VALUE_TYPE_HANDLER_REGISTRY

/-- Model of `_update_node_value(branch, value)`: look up the handler for
the branch's rule name, type-check the new value, and replace the branch's
first child token by the serialised lexeme.  The branch is given by its
path into `root`; the updated tree is returned.  On failure the tree is
unmodified and the raised exception is returned: a missing or mismatched
handler raises `TypeError` (a Python list or a `Token` has no `data`
attribute, so `getattr(branch, "data", None)` makes those a `TypeError`
too); the remaining error branches are unreachable for grammar-conformant
trees. -/
def update_node_value (root : PNode) (p : List Nat) (v : PyValue) : Except PyErr PNode :=
  match nodeAt root p with
  | some (PNode.tree d cs) =>
    match registryGet d with
    | Option.none => .error (.typeError "Trying to change value type")
    | some h =>
      if h.type_check v then
        match cs with
        | PNode.token s :: rest =>
          .ok (modifyAt root p (fun _ => PNode.tree d (PNode.token (h.to_token v s) :: rest)))
        | PNode.tree _ _ :: _ => .error (.attributeError "update")
        | [] => .error (.indexError "list index out of range")
      else .error (.typeError "Trying to change value type")
  | some (PNode.token _) => .error (.typeError "Trying to change value type")
  | Option.none => .error (.typeError "Trying to change value type")

/-- Sequential element updates of `Config._update_list_value`'s loop (also
the loop of `ConfigList.__setitem__` for slices): each element is written
into the tree in turn; when one update raises, the updates already applied
remain in the returned tree. -/
def updateNodes : PNode → List (List Nat × PyValue) → PNode × Option PyErr
  | t, [] => (t, Option.none)
  | t, (p, v) :: rest =>
    match update_node_value t p v with
    | .ok t' => updateNodes t' rest
    | .error e => (t, some e)

/-- Model of `Config._update_list_value(key, value)` (key already
normalised): the refs entry must be a list of the same length, after which
every element is updated in sequence.  Returns the (possibly partially)
updated tree and the exception, if one was raised. -/
def Doc.updateListValue (d : Doc) (k : String) (value : List PyValue) : PNode × Option PyErr :=
  match pyLookup k d.refs with
  | some (Ref.many ps) =>
    if ps.length ≠ value.length then
      (d.tree, some (.valueError ("Trying to change the length of list '" ++ k ++ "'")))
    else updateNodes d.tree (ps.zip value)
  | some (Ref.one _) =>
    (d.tree, some (.typeError ("Trying to change the type of variable '" ++ k ++ "'")))
  | Option.none => (d.tree, some (.keyError k))

/-- Model of `Config.__setitem__`. -/
def Doc.setItem (d : Doc) (key : String) (v : PyValue) : Doc × Option PyErr :=
  let k := normalizeKey d.caseSensitive key
  match pyLookup k d.data with
  | Option.none => (d, some (.keyError ("Key doesn't exist: " ++ k)))
  | some cur =>
    match cur with
    | PyValue.none =>
      match v with
      | PyValue.none => (d, Option.none)
      | _ => (d, some (.typeError ("Trying to change the type of variable '" ++ k ++ "'")))
    | _ =>
      match v with
      | PyValue.dict =>
        (d, some (.blockAssignError "Trying to assign a new value to an entire block"))
      | PyValue.list xs =>
        match Doc.updateListValue d k xs with
        | (t', Option.none) =>
          ({ d with tree := t', data := pySet d.data k (PyValue.list xs) }, Option.none)
        | (t', some e) => ({ d with tree := t' }, some e)
      | _ =>
        match pyLookup k d.refs with
        | some (Ref.one p) =>
          match update_node_value d.tree p v with
          | .ok t' => ({ d with tree := t', data := pySet d.data k v }, Option.none)
          | .error e => (d, some e)
        | some (Ref.many _) => (d, some (.typeError "Trying to change value type"))
        | Option.none => (d, some (.keyError k))

/-- Model of `Config.__getitem__` (`None` result means `KeyError`). -/
def Doc.getItem (d : Doc) (key : String) : Option PyValue :=
  pyLookup (normalizeKey d.caseSensitive key) d.data

/-- Model of `key in config`.  `Config` does not override
`dict.__contains__`, so the raw key is looked up with no normalisation. -/
def Doc.contains (d : Doc) (key : String) : Bool :=
  (pyLookup key d.data).isSome

/-- Parent of the node at a path (`None` for the root, which has no
`parent` attribute). -/
def parentPath (p : List Nat) : Option (List Nat) :=
  match p with
  | [] => Option.none
  | _ => some p.dropLast

/-- Model of `_find_rule_node(ref)`: for a list ref, the parent of the
first element node (`IndexError`, modelled as `none`, on an empty list);
for a node whose rule name starts with `key_`, the node itself; otherwise
the node's parent.  A dangling path or a token ref (which would raise
`AttributeError` in Python) yields `none`. -/
def find_rule_node (root : PNode) (ref : Ref) : Option (List Nat) :=
  match ref with
  | Ref.many [] => Option.none
  | Ref.many (p :: _) => parentPath p
  | Ref.one p =>
    match nodeAt root p with
    | some (PNode.tree dd _) => if strStarts dd "key_" then some p else parentPath p
    | some (PNode.token _) => Option.none
    | Option.none => Option.none

/-- Remove the first child structurally equal to `x` (Python
`list.remove`). -/
def removeFirstBeq : List PNode → PNode → List PNode
  | [], _ => []
  | c :: rest, x => if PNode.beq c x then rest else c :: removeFirstBeq rest x

/-- Model of `Config.__delitem__`: the entry is removed from the dict
first (a missing key raises `KeyError` before anything is touched), then
the owning rule node is located through `_find_rule_node` and removed from
its parent's children, then the refs entry is dropped.  The error branches
after the dict removal are unreachable for documents built by
interpretation; they model the exception Python would raise at that point,
with the mutations already performed left in place. -/
def Doc.delItem (d : Doc) (key : String) : Doc × Option PyErr :=
  let k := normalizeKey d.caseSensitive key
  match pyLookup k d.data with
  | Option.none => (d, some (.keyError k))
  | some _ =>
    let data' := pyDel d.data k
    match pyLookup k d.refs with
    | Option.none => ({ d with data := data' }, some (.keyError k))
    | some ref =>
      match find_rule_node d.tree ref with
      | Option.none => ({ d with data := data' }, some (.attributeError "parent"))
      | some rp =>
        match nodeAt d.tree rp, parentPath rp with
        | some rule, some pp =>
          match nodeAt d.tree pp with
          | some (PNode.tree _ sibs) =>
            if sibs.any (fun c => PNode.beq c rule) then
              ({ d with
                  tree := modifyAt d.tree pp (fun n =>
                    match n with
                    | PNode.tree dd cs => PNode.tree dd (removeFirstBeq cs rule)
                    | t => t),
                  data := data',
                  refs := pyDel d.refs k }, Option.none)
            else ({ d with data := data' }, some (.valueError "list.remove(x): x not in list"))
          | _ => ({ d with data := data' }, some (.attributeError "children"))
        | _, _ => ({ d with data := data' }, some (.attributeError "parent"))

/-- Strip one trailing newline, as `Config._reconstruct` does on the
reconstructor's output. -/
def stripNL (s : String) : String :=
  if s.data.getLast? = some '\n' then String.mk s.data.dropLast else s

/-- Model of `Config.__str__`: the empty string for an empty dict,
otherwise the reconstruction of the retained tree (the reconstructor is an
external collaborator, abstracted as the function `render`; the deep copy
it is handed leaves `d.tree` unchanged, which explicit state passing makes
implicit). -/
def Doc.toText (render : PNode → String) (d : Doc) : String :=
  if d.data = ([] : PyDict PyValue) then "" else stripNL (render d.tree)

/-! ### The bound list (`ConfigList.__setitem__`) -/

/-- Python's normalisation of one slice endpoint against a list length
(step 1). -/
def normIdx (len : Nat) (v : Int) : Nat :=
  if v < 0 then (if len + v < 0 then 0 else (len + v).toNat)
  else (if v > len then len else v.toNat)

/-- Normalised `[start:stop]` bounds of a slice against a list length. -/
def pySliceRange (len : Nat) (start stop : Option Int) : Nat × Nat :=
  (match start with | Option.none => 0 | some v => normIdx len v,
   match stop with | Option.none => len | some v => normIdx len v)

/-- Python list indexing: negative indices count from the end;
out-of-range indices raise `IndexError` (`none`). -/
def pyListIdx (len : Nat) (i : Int) : Option Nat :=
  let j := if i < 0 then i + len else i
  if 0 ≤ j ∧ j < len then some j.toNat else Option.none

/-- Model of the slice branch of `ConfigList.__setitem__` on the bound
list's state `(tree, elems, refs)`: the addressed refs slice must have
exactly the length of the supplied values, else `ValueError` with nothing
touched; then each addressed node is updated in sequence (a failing element
leaves the earlier tree writes in place but the in-memory list unchanged),
and on success the in-memory slice is replaced (following CPython, which
clamps the upper bound of an assignment slice to at least the lower
bound). -/
def configListSetSlice (tree : PNode) (elems : List PyValue) (refs : List (List Nat))
    (start stop : Option Int) (values : List PyValue) :
    (PNode × List PyValue) × Option PyErr :=
  let a := (pySliceRange refs.length start stop).1
  let b := (pySliceRange refs.length start stop).2
  let refsSlice := (refs.drop a).take (b - a)
  if values.length ≠ refsSlice.length then
    ((tree, elems),
     some (.valueError ("Slice assignment would change list length from "
       ++ pyStrOfInt refsSlice.length ++ " to " ++ pyStrOfInt values.length)))
  else
    match updateNodes tree (refsSlice.zip values) with
    | (t', Option.none) =>
      let a' := (pySliceRange elems.length start stop).1
      let b' := (pySliceRange elems.length start stop).2
      ((t', elems.take a' ++ values ++ elems.drop (max a' b')), Option.none)
    | (t', some e) => ((t', elems), some e)

/-- Model of the integer-index branch of `ConfigList.__setitem__`: the
referenced node is updated through `_update_node_value`, then the in-memory
element is replaced. -/
def configListSetIndex (tree : PNode) (elems : List PyValue) (refs : List (List Nat))
    (i : Int) (v : PyValue) : (PNode × List PyValue) × Option PyErr :=
  match pyListIdx refs.length i with
  | Option.none => ((tree, elems), some (.indexError "list index out of range"))
  | some j =>
    match update_node_value tree ((refs.get? j).getD []) v with
    | .error e => ((tree, elems), some e)
    | .ok t' =>
      match pyListIdx elems.length i with
      | Option.none => ((t', elems), some (.indexError "list index out of range"))
      | some j2 => ((t', elems.set j2 v), Option.none)

/-! ### Tree-to-model interpretation (`ConfigToDict`) -/

/-- The pair of dictionaries built by the interpreter: parsed values and
tree references. -/
abbrev Interp := PyDict PyValue × PyDict Ref

/-- Does a child list contain a token?  The list comprehensions in
`_get_key` and `_transform_values` evaluate `child.data` on every child, so
a single `Token` child (which has no `data` attribute) raises
`AttributeError`. -/
def hasTokenChild (children : List PNode) : Bool :=
  children.any fun c => match c with | PNode.token _ => true | _ => false

/-- Selector of the `_get_key` comprehension: a `key`-rule child
contributes its first child (`None` marking the `IndexError` of
`child.children[0]` on an empty `key` rule). -/
def keyChildSel : PNode → Option (Option PNode)
  | PNode.tree dd kcs => if dd = "key" then some kcs.head? else Option.none
  | PNode.token _ => Option.none

/-- Model of `ConfigToDict._get_key(tree)`: among the children, those that
are `key` rules contribute their first child; the first such node must be a
token, whose text is the key, upper-cased when keys are case-insensitive. -/
def get_key (csKeys : Bool) (children : List PNode) : Except PyErr String :=
  if hasTokenChild children then .error (.attributeError "data")
  else
    let keyHeads := children.filterMap keyChildSel
    if keyHeads.any (fun h => h.isNone) then .error (.indexError "list index out of range")
    else
      match keyHeads with
      | [] => .error (.indexError "list index out of range")
      | some (PNode.token s) :: _ => .ok (if csKeys then s else pyUpper s)
      | some (PNode.tree _ _) :: _ => .error (.typeError "No key found.")
      | Option.none :: _ => .error (.indexError "list index out of range")

/-- The children whose rule name has a registry entry, with their rule
name, child list and path (`base ++ [i]` for the `i`-th child, `i`
counting from the given start index). -/
def valueChildRefs : List PNode → List Nat → Nat → List (String × List PNode × List Nat)
  | [], _, _ => []
  | PNode.tree d cs :: rest, base, i =>
    if (registryGet d).isSome then (d, cs, base ++ [i]) :: valueChildRefs rest base (i + 1)
    else valueChildRefs rest base (i + 1)
  | PNode.token _ :: rest, base, i => valueChildRefs rest base (i + 1)

/-- Parse one collected value node: its handler's `from_token` applied to
its first child token (`child.children[0]`); a non-token first child would
make `from_token` fail in Python. -/
def fromTokenChild (rr : String × List PNode × List Nat) : Except PyErr PyValue :=
  match registryGet rr.1 with
  | some h =>
    match rr.2.1 with
    | PNode.token s :: _ => Except.ok (h.from_token s)
    | _ => Except.error (PyErr.typeError "from_token applied to a non-token child")
  | Option.none => Except.error (PyErr.typeError "unreachable: registry entry vanished")

/-- Model of `ConfigToDict._transform_values(children)`: collect the value
nodes (children with a registry entry), fail if there are none, and parse
each one's first child token with its handler.  Returns the parsed values
and the paths of the value nodes. -/
def transform_values (children : List PNode) (base : List Nat) :
    Except PyErr (List PyValue × List (List Nat)) :=
  if hasTokenChild children then .error (.attributeError "data")
  else
    let refs := valueChildRefs children base 0
    if refs.length = 0 then .error (.valueError "No values found in Tree")
    else do
      let values ← refs.mapM fromTokenChild
      return (values, refs.map (fun r => r.2.2))

/-- Model of `ConfigToDict._transform_value(children)`: as
`_transform_values`, but exactly one value node must match. -/
def transform_value (children : List PNode) (base : List Nat) :
    Except PyErr (PyValue × List Nat) := do
  let vr ← transform_values children base
  if vr.2.length > 1 then .error (.valueError "More than one value found in Tree")
  else
    match vr.1, vr.2 with
    | v :: _, r :: _ => .ok (v, r)
    | _, _ => .error (.valueError "No values found in Tree")

mutual

/-- Model of the interpreter's dispatch (`lark.visitors.Interpreter`): a
tree whose rule name is one of the four statement rules is handled by the
corresponding `ConfigToDict` method; any other tree is traversed by the
default visitor, which visits its tree children in order.  `acc` is the
`(_data, _refs)` state; `path` is the node's path from the document root. -/
def visitNode (csKeys : Bool) (acc : Interp) : PNode → List Nat → Except PyErr Interp
  | PNode.token _, _ => .ok acc
  | PNode.tree d cs, path =>
    if d = "key_list" then do
      let key ← get_key csKeys cs
      let vr ← transform_values cs path
      .ok (pySet acc.1 key (PyValue.list vr.1), pySet acc.2 key (Ref.many vr.2))
    else if d = "key_value" then do
      let key ← get_key csKeys cs
      let vr ← transform_value cs path
      .ok (pySet acc.1 key vr.1, pySet acc.2 key (Ref.one vr.2))
    else if d = "key_block" then do
      let key ← get_key csKeys cs
      visitBlockChild csKeys acc key cs path 0
    else if d = "key_null" then do
      let key ← get_key csKeys cs
      .ok (pySet acc.1 key PyValue.none, pySet acc.2 key (Ref.one path))
    else
      visitChildren csKeys acc cs path 0

/-- Model of the loop in `ConfigToDict.key_block`: scan the children for
the first `block` rule; construct a nested document from it (a fresh
interpretation of the subtree, whose failure propagates), store the nested
document (modelled by the `dict` marker) and the block node's path, and
stop.  A token child hit before the block raises `AttributeError`
(`child.data`); if no block child exists nothing is stored. -/
def visitBlockChild (csKeys : Bool) (acc : Interp) (key : String) :
    List PNode → List Nat → Nat → Except PyErr Interp
  | [], _, _ => .ok acc
  | PNode.token _ :: _, _, _ => .error (.attributeError "data")
  | PNode.tree d cs :: rest, path, i =>
    if d = "block" then do
      let _ ← visitNode csKeys (([], []) : Interp) (PNode.tree d cs) []
      .ok (pySet acc.1 key PyValue.dict, pySet acc.2 key (Ref.one (path ++ [i])))
    else visitBlockChild csKeys acc key rest path (i + 1)

/-- The default visitor: visit every tree child in order (tokens are
skipped), threading the state. -/
def visitChildren (csKeys : Bool) (acc : Interp) :
    List PNode → List Nat → Nat → Except PyErr Interp
  | [], _, _ => .ok acc
  | PNode.token _ :: rest, path, i => visitChildren csKeys acc rest path (i + 1)
  | PNode.tree d cs :: rest, path, i => do
    let acc' ← visitNode csKeys acc (PNode.tree d cs) (path ++ [i])
    visitChildren csKeys acc' rest path (i + 1)

end

/-- Model of `Config.__init__` on an already parsed tree: run the
interpreter from the root and store both dictionaries (wrapping the list
values in `ConfigList` changes no modelled state: the bound list is the
pair of the stored list and its refs entry). -/
def Doc.build (tree : PNode) (csKeys : Bool) : Except PyErr Doc :=
  (visitNode csKeys (([], []) : Interp) tree []).map
    (fun dr => { tree := tree, data := dr.1, refs := dr.2, caseSensitive := csKeys })

/-! ### Derived definitions used in the statements -/

/-- Key-set effect of one Python dict assignment: an existing key keeps its
position, a new key is appended. -/
def insKey (ks : List String) (k : String) : List String :=
  if k ∈ ks then ks else ks ++ [k]

/-- First-occurrence order of a key sequence: the iteration order of a
Python dict fed those keys. -/
def firstOcc (ks : List String) : List String := ks.foldl insKey []

/-- The value/ref pair of the last entry with the given key, if any. -/
def lastFind : List (String × PyValue × Ref) → String → Option (PyValue × Ref)
  | [], _ => Option.none
  | (k', vr) :: rest, k =>
    match lastFind rest k with
    | some x => some x
    | Option.none => if k' = k then some vr else Option.none

/-- Fold a sequence of (key, value, ref) entries into the interpreter state
by Python dict assignment on both dictionaries. -/
def foldEntries : List (String × PyValue × Ref) → Interp → Interp
  | [], acc => acc
  | (k, v, r) :: rest, acc => foldEntries rest (pySet acc.1 k v, pySet acc.2 k r)

/-- A handler that accepts nothing; default for a registry miss in
specification-side definitions (never reached under the side conditions of
the theorems that use it). -/
def defaultHandler : ValueTypeHandler :=
  { type_check := fun _ => false, from_token := fun _ => PyValue.none, to_token := fun _ _ => "" }

/-- Well-formed statements of one block, the shapes the grammar contract
produces for the four key rules (`key_block` shown with an empty nested
block). -/
inductive Stmt where
  | val (key : String) (rule : String) (lex : String)
  | listS (key : String) (rule : String) (lexes : List String)
  | blockS (key : String)
  | nullS (key : String)
  deriving DecidableEq, Repr

/-- The parse subtree of a statement. -/
def asTree : Stmt → PNode
  | .val k r lx =>
    PNode.tree "key_value" [PNode.tree "key" [PNode.token k], PNode.tree r [PNode.token lx]]
  | .listS k r lxs =>
    PNode.tree "key_list"
      (PNode.tree "key" [PNode.token k] :: lxs.map (fun lx => PNode.tree r [PNode.token lx]))
  | .blockS k =>
    PNode.tree "key_block" [PNode.tree "key" [PNode.token k], PNode.tree "block" []]
  | .nullS k =>
    PNode.tree "key_null" [PNode.tree "key" [PNode.token k]]

/-- Side conditions for a statement to interpret without error: scalar
rules must be registered, and a list must have at least one element. -/
def stmtOk : Stmt → Bool
  | .val _ r _ => (registryGet r).isSome
  | .listS _ r lxs => (registryGet r).isSome && !lxs.isEmpty
  | .blockS _ => true
  | .nullS _ => true

/-- The raw key of a statement. -/
def stmtRawKey : Stmt → String
  | .val k _ _ => k
  | .listS k _ _ => k
  | .blockS k => k
  | .nullS k => k

/-- The map key a statement is stored under. -/
def stmtKey (csKeys : Bool) (s : Stmt) : String :=
  if csKeys then stmtRawKey s else pyUpper (stmtRawKey s)

/-- The interpreted value of a statement. -/
def stmtValue : Stmt → PyValue
  | .val _ r lx => ((registryGet r).getD defaultHandler).from_token lx
  | .listS _ r lxs => PyValue.list (lxs.map ((registryGet r).getD defaultHandler).from_token)
  | .blockS _ => PyValue.dict
  | .nullS _ => PyValue.none

/-- Paths `path ++ [i]`, `path ++ [i+1]`, … for `n` consecutive list
elements. -/
def listPaths (path : List Nat) : Nat → Nat → List (List Nat)
  | _, 0 => []
  | i, n + 1 => (path ++ [i]) :: listPaths path (i + 1) n

/-- The tree reference a statement at the given path is stored with. -/
def stmtRef (path : List Nat) : Stmt → Ref
  | .val _ _ _ => Ref.one (path ++ [1])
  | .listS _ _ lxs => Ref.many (listPaths path 1 lxs.length)
  | .blockS _ => Ref.one (path ++ [1])
  | .nullS _ => Ref.one path

/-- The (key, value, ref) entries of a statement list, the `i`-th statement
sitting at path `[i]` below the root. -/
def stmtEntries (csKeys : Bool) : Nat → List Stmt → List (String × PyValue × Ref)
  | _, [] => []
  | i, s :: rest => (stmtKey csKeys s, stmtValue s, stmtRef [i] s) :: stmtEntries csKeys (i + 1) rest

/-- Expected contents of `valueChildRefs` on the value children of a
`key_list` statement. -/
def vcrList (r : String) (path : List Nat) : List String → Nat → List (String × List PNode × List Nat)
  | [], _ => []
  | lx :: rest, i => (r, [PNode.token lx], path ++ [i]) :: vcrList r path rest (i + 1)

/-- The rule node `delete(key)` must detach, as the specification states
it: for a list reference, the parent of the first element node; for a
reference to a node whose rule name starts with `key_` (a null
reference), the node itself; otherwise (scalar and block references) the
parent of the stored node. -/
def RulePathSpec (t : PNode) (ref : Ref) (rp : List Nat) : Prop :=
  (∃ q qs, ref = Ref.many (q :: qs) ∧ q ≠ [] ∧ rp = q.dropLast) ∨
  (∃ q dd cs, ref = Ref.one q ∧ nodeAt t q = some (PNode.tree dd cs) ∧
    strStarts dd "key_" = true ∧ rp = q) ∨
  (∃ q dd cs, ref = Ref.one q ∧ nodeAt t q = some (PNode.tree dd cs) ∧
    strStarts dd "key_" = false ∧ q ≠ [] ∧ rp = q.dropLast)

/-- A six-key example file: a two-element integer list `A`, an integer
scalar `B`, a null assignment `C`, a block `D`, a Fortran-notation double
`E`, and a logical `F`; keys are case-insensitive. -/
def exTree : PNode :=
  PNode.tree "start" [
    PNode.tree "key_list" [
      PNode.tree "key" [PNode.token "A"],
      PNode.tree "integer" [PNode.token "1"],
      PNode.tree "integer" [PNode.token "2"]],
    PNode.tree "key_value" [
      PNode.tree "key" [PNode.token "B"],
      PNode.tree "integer" [PNode.token "7"]],
    PNode.tree "key_null" [
      PNode.tree "key" [PNode.token "C"]],
    PNode.tree "key_block" [
      PNode.tree "key" [PNode.token "D"],
      PNode.tree "block" []],
    PNode.tree "key_value" [
      PNode.tree "key" [PNode.token "E"],
      PNode.tree "double" [PNode.token "1.000000D-08"]],
    PNode.tree "key_value" [
      PNode.tree "key" [PNode.token "F"],
      PNode.tree "logical" [PNode.token ".true."]]]

/-- The document the interpreter builds from `exTree` (established by
`exDoc_build`). -/
def exDoc : Doc :=
  { tree := exTree,
    data := [
      ("A", PyValue.list [PyValue.int 1, PyValue.int 2]),
      ("B", PyValue.int 7),
      ("C", PyValue.none),
      ("D", PyValue.dict),
      ("E", PyValue.float "1.000000E-08"),
      ("F", PyValue.bool true)],
    refs := [
      ("A", Ref.many [[0, 1], [0, 2]]),
      ("B", Ref.one [1, 1]),
      ("C", Ref.one [2]),
      ("D", Ref.one [3, 1]),
      ("E", Ref.one [4, 1]),
      ("F", Ref.one [5, 1])],
    caseSensitive := false }

/-- A case-sensitive document with two keys differing only in case. -/
def exCsDoc : Doc :=
  { tree := PNode.tree "start" [
      PNode.tree "key_value" [
        PNode.tree "key" [PNode.token "Foo"],
        PNode.tree "integer" [PNode.token "1"]],
      PNode.tree "key_value" [
        PNode.tree "key" [PNode.token "FOO"],
        PNode.tree "integer" [PNode.token "2"]]],
    data := [("Foo", PyValue.int 1), ("FOO", PyValue.int 2)],
    refs := [("Foo", Ref.one [0, 1]), ("FOO", Ref.one [1, 1])],
    caseSensitive := true }

/-! ### Shared lemmas -/

theorem pyLookup_pySet {α : Type} (d : PyDict α) (k k' : String) (v : α) :
    pyLookup k (pySet d k' v) = if k = k' then some v else pyLookup k d := by
  induction d with
  | nil => by_cases h : k = k' <;> simp [pySet, pyLookup, h]
  | cons e rest ih =>
    obtain ⟨k2, v2⟩ := e
    by_cases h2 : k2 = k'
    · subst h2
      by_cases h1 : k = k2 <;> simp [pySet, pyLookup, h1]
    · by_cases h1 : k = k2
      · subst h1
        have hk : ¬ k = k' := fun he => h2 he
        simp [pySet, pyLookup, h2, hk]
      · simp [pySet, pyLookup, h2, h1, ih]

theorem pyKeys_pySet {α : Type} (d : PyDict α) (k : String) (v : α) :
    pyKeys (pySet d k v) = insKey (pyKeys d) k := by
  induction d with
  | nil => simp [pySet, pyKeys, insKey]
  | cons e rest ih =>
    obtain ⟨k2, v2⟩ := e
    by_cases h2 : k2 = k
    · subst h2; simp [pySet, pyKeys, insKey]
    · have h1 : ¬ k = k2 := fun he => h2 he.symm
      simp only [pyKeys] at ih
      by_cases hm : k ∈ pyKeys rest
      · simp only [pyKeys] at hm
        simp [pySet, pyKeys, insKey, h2, ih, hm, h1]
      · simp only [pyKeys] at hm
        simp [pySet, pyKeys, insKey, h2, ih, hm, h1]

theorem pyLookup_isSome_iff_mem {α : Type} (d : PyDict α) (k : String) :
    (pyLookup k d).isSome = true ↔ k ∈ pyKeys d := by
  induction d with
  | nil => simp [pyLookup, pyKeys]
  | cons e rest ih =>
    obtain ⟨k2, v2⟩ := e
    by_cases h1 : k = k2
    · subst h1; simp [pyLookup, pyKeys]
    · simp [pyLookup, pyKeys, h1, ih, fun he : k2 = k => h1 he.symm]

theorem pyLookup_pyDel {α : Type} (d : PyDict α) (k k' : String) :
    pyLookup k' (pyDel d k) = if k' = k then Option.none else pyLookup k' d := by
  induction d with
  | nil => by_cases h : k' = k <;> simp [pyDel, pyLookup, h]
  | cons e rest ih =>
    obtain ⟨k2, v2⟩ := e
    by_cases h2 : k2 = k
    · subst h2
      by_cases h1 : k' = k2
      · subst h1; simp [pyDel, pyLookup, ih]
      · simp [pyDel, pyLookup, h1, ih]
    · by_cases h1 : k' = k2
      · subst h1
        have hk : ¬ k' = k := fun he => h2 he
        simp [pyDel, pyLookup, h2, hk]
      · simp [pyDel, pyLookup, h2, h1, ih]

theorem pyKeys_pyDel {α : Type} (d : PyDict α) (k : String) :
    pyKeys (pyDel d k) = (pyKeys d).filter (fun x => x != k) := by
  induction d with
  | nil => simp [pyDel, pyKeys]
  | cons e rest ih =>
    obtain ⟨k2, v2⟩ := e
    simp only [pyKeys] at ih
    by_cases h2 : k2 = k
    · subst h2; simp [pyDel, pyKeys, ih]
    · simp [pyDel, pyKeys, h2, ih, bne_iff_ne]

theorem pyLookup_mem {α : Type} {d : PyDict α} {k : String} {v : α}
    (h : pyLookup k d = some v) : (k, v) ∈ d := by
  induction d with
  | nil => simp [pyLookup] at h
  | cons e rest ih =>
    obtain ⟨k2, v2⟩ := e
    by_cases h1 : k = k2
    · subst h1
      simp [pyLookup] at h
      subst h
      exact List.mem_cons_self _ _
    · simp [pyLookup, h1] at h
      exact List.mem_cons_of_mem _ (ih h)

theorem registry_rejects_none :
    ∀ (name : String) (h : ValueTypeHandler),
      registryGet name = some h → h.type_check PyValue.none = false := by
  have hall : VALUE_TYPE_HANDLER_REGISTRY.all
      (fun e => !(e.2.type_check PyValue.none)) = true := by decide
  intro name h hm
  have hmem := pyLookup_mem hm
  have hb := List.all_eq_true.mp hall (name, h) hmem
  simpa using hb

theorem update_node_value_none (root : PNode) (p : List Nat) :
    update_node_value root p PyValue.none
      = .error (.typeError "Trying to change value type") := by
  unfold update_node_value
  cases hn : nodeAt root p with
  | none => rfl
  | some n =>
    cases n with
    | token s => rfl
    | tree d cs =>
      cases hr : registryGet d with
      | none => simp [hr]
      | some h => simp [hr, registry_rejects_none d h hr]

theorem exDoc_build : Doc.build exTree false = Except.ok exDoc := by rfl

theorem findMarker_sound : ∀ (cs : List Char) (c : Char),
    findMarker cs = some c → c ∈ cs ∧ c ∈ (['D', 'd', 'E', 'e'] : List Char) := by
  intro cs
  induction cs with
  | nil => intro c h; simp [findMarker] at h
  | cons x rest ih =>
    intro c h
    by_cases hx : x ∈ (['D', 'd', 'E', 'e'] : List Char)
    · simp [findMarker, hx] at h
      subst h
      exact ⟨List.mem_cons_self _ _, hx⟩
    · simp [findMarker, hx] at h
      obtain ⟨h1, h2⟩ := ih c h
      exact ⟨List.mem_cons_of_mem _ h1, h2⟩

/-! ### C2 — exponent-marker preservation in the float/double serialiser -/

/-- C2, counterexample: for the double key `E`, originally written
`1.000000D-08`, `set(key, -8.0)` succeeds, but the rewritten lexeme is
`str(-8.0).replace("e", "D") = "-8.0"` (Python renders `-8.0` without an
exponent), which contains neither a `D` nor any exponent marker — the
serialized text does not render the value with the `D` marker as the claim
states. -/
theorem c2_counterexample :
    (Doc.setItem exDoc "E" (PyValue.float "-8.0")).2 = Option.none ∧
    nodeAt (Doc.setItem exDoc "E" (PyValue.float "-8.0")).1.tree [4, 1]
      = some (PNode.tree "double" [PNode.token "-8.0"]) ∧
    ("-8.0".data.contains 'D') = false ∧ ("-8.0".data.contains 'd') = false := by
  refine ⟨by decide, by decide, by decide, by decide⟩

/-- C2 (amended): the float/double serialiser scans the original lexeme for
the first character among `D`, `d`, `E`, `e` and substitutes that exact
character (case included) for the `e` of Python's default rendering of the
new value; when the rendering of the new value contains no `e` (as for
`-8.0`, rendered `-8.0`), the output carries no exponent marker at all, so
after `set(key, -8.0)` the text shows `-8.0` rather than a `D`-notation
value, while `set(key, 1e-08)` does yield `1D-08`. -/
theorem c2_marker_reuse :
    (∀ (vs tok : String) (c : Char) (h : ValueTypeHandler),
        registryGet "double" = some h →
        findMarker tok.data = some c →
        c ∈ tok.data ∧ c ∈ (['D', 'd', 'E', 'e'] : List Char) ∧
        h.to_token (PyValue.float vs) tok = replaceChar vs 'e' c) ∧
    (∀ (vs tok : String) (h : ValueTypeHandler),
        registryGet "double" = some h →
        findMarker tok.data = Option.none →
        h.to_token (PyValue.float vs) tok = vs) ∧
    float_to_str "1e-08" "1.000000D-08" = "1D-08" ∧
    float_to_str "-8.0" "1.000000D-08" = "-8.0" := by
  refine ⟨?_, ?_, by decide, by decide⟩
  · intro vs tok c h hreg hm
    obtain ⟨h1, h2⟩ := findMarker_sound tok.data c hm
    have hh : h = ((registryGet "double").getD defaultHandler) := by rw [hreg]; rfl
    subst hh
    exact ⟨h1, h2, by simp [registryGet, VALUE_TYPE_HANDLER_REGISTRY, pyLookup,
      float_to_str, hm]⟩
  · intro vs tok h hreg hm
    have hh : h = ((registryGet "double").getD defaultHandler) := by rw [hreg]; rfl
    subst hh
    simp [registryGet, VALUE_TYPE_HANDLER_REGISTRY, pyLookup, float_to_str, hm]

/-- C2, witness for `c2_marker_reuse`: instantiated at the lexeme
`1.000000D-08` and new-value rendering `1e-08`. -/
theorem c2_marker_reuse_witness :
    'D' ∈ "1.000000D-08".data ∧ 'D' ∈ (['D', 'd', 'E', 'e'] : List Char) ∧
    ((registryGet "double").getD defaultHandler).to_token (PyValue.float "1e-08")
      "1.000000D-08" = replaceChar "1e-08" 'e' 'D' :=
  c2_marker_reuse.1 "1e-08" "1.000000D-08" 'D'
    ((registryGet "double").getD defaultHandler) rfl rfl

/-! ### C7 — null-valued keys -/

/-- C7: when the current value of a key is the null sentinel,
`set(key, null)` succeeds as a strict no-op — the document (hence its tree
and its serialized text, for every reconstructor) is unchanged — and
`set(key, v)` for any non-null `v` fails with the `TypeMismatch` error,
leaving the document unchanged. -/
theorem c7_null_key (d : Doc) (key : String)
    (h : pyLookup (normalizeKey d.caseSensitive key) d.data = some PyValue.none) :
    Doc.setItem d key PyValue.none = (d, Option.none) ∧
    (∀ render, Doc.toText render (Doc.setItem d key PyValue.none).1 = Doc.toText render d) ∧
    (∀ v, v ≠ PyValue.none →
      Doc.setItem d key v =
        (d, some (PyErr.typeError
          ("Trying to change the type of variable '"
            ++ normalizeKey d.caseSensitive key ++ "'")))) := by
  refine ⟨?_, ?_, ?_⟩
  · simp [Doc.setItem, h]
  · intro render
    simp [Doc.setItem, h]
  · intro v hv
    cases v <;> simp [Doc.setItem, h] <;> exact absurd rfl hv

/-- C7, witness: the null key `C` of the example document. -/
theorem c7_null_key_witness :
    Doc.setItem exDoc "C" PyValue.none = (exDoc, Option.none) ∧
    Doc.setItem exDoc "C" (PyValue.int 3) =
      (exDoc, some (PyErr.typeError "Trying to change the type of variable 'C'")) :=
  ⟨(c7_null_key exDoc "C" (by decide)).1,
   (c7_null_key exDoc "C" (by decide)).2.2 (PyValue.int 3) (by decide)⟩

/-! ### C10 — null is never accepted for a non-null scalar -/

/-- C10: for a key holding a non-null scalar (not a list, not a nested
block), `set(key, None)` fails with the `TypeMismatch` error and leaves
the document unchanged — no registered value type accepts `None`, so
assigning null can never clear an existing value. -/
theorem c10_set_none_rejected (d : Doc) (key : String) (cur : PyValue) (ref : Ref)
    (hd : pyLookup (normalizeKey d.caseSensitive key) d.data = some cur)
    (hn : cur ≠ PyValue.none)
    (hdict : cur ≠ PyValue.dict)
    (hlist : ∀ xs, cur ≠ PyValue.list xs)
    (hr : pyLookup (normalizeKey d.caseSensitive key) d.refs = some ref) :
    Doc.setItem d key PyValue.none
      = (d, some (PyErr.typeError "Trying to change value type")) ∧
    (∀ name h, registryGet name = some h → h.type_check PyValue.none = false) := by
  refine ⟨?_, registry_rejects_none⟩
  cases cur <;> try exact absurd rfl hn
  all_goals try exact absurd rfl hdict
  case list xs => exact absurd rfl (hlist xs)
  all_goals
    cases ref with
    | one p => simp [Doc.setItem, hd, hr, update_node_value_none]
    | many ps => simp [Doc.setItem, hd, hr]

/-- C10, witness: setting `None` on the integer key `B` of the example
document. -/
theorem c10_set_none_rejected_witness :
    Doc.setItem exDoc "B" PyValue.none
      = (exDoc, some (PyErr.typeError "Trying to change value type")) ∧
    (∀ name h, registryGet name = some h → h.type_check PyValue.none = false) :=
  c10_set_none_rejected exDoc "B" (PyValue.int 7) (Ref.one [1, 1])
    (by decide) (by decide) (by decide) (by intro xs; simp) (by decide)

/-! ### C4 — whole-block reassignment -/

/-- C4, counterexample: for the block key `D`, `set("D", 5)` does fail, but
with a `TypeError` (`TypeMismatch`), not with the `SyntaxError` that models
`StructuralEditNotSupported` — the claim that every new value fails with
`StructuralEditNotSupported` is wrong for non-dict values. -/
theorem c4_counterexample :
    Doc.setItem exDoc "D" (PyValue.int 5)
      = (exDoc, some (PyErr.typeError "Trying to change value type")) ∧
    ¬ ∃ m, (Doc.setItem exDoc "D" (PyValue.int 5)).2 = some (PyErr.blockAssignError m) := by
  constructor
  · decide
  · rintro ⟨m, hm⟩
    rw [(by decide : (Doc.setItem exDoc "D" (PyValue.int 5)).2
      = some (PyErr.typeError "Trying to change value type"))] at hm
    simp at hm

/-- C4 (amended): for a key whose current value is a nested document,
`set(key, v)` fails for every `v` and leaves the document unchanged, but
the error is `StructuralEditNotSupported` (the `SyntaxError` for assigning
to an entire block) exactly when `v` is a dict/Document; any other `v`
fails with a `TypeMismatch` (the `block` rule has no registry handler, and
a list `v` finds a non-list refs entry). -/
theorem c4_block_reassignment (d : Doc) (key : String) (v : PyValue)
    (p : List Nat) (bs : List PNode)
    (hd : pyLookup (normalizeKey d.caseSensitive key) d.data = some PyValue.dict)
    (hr : pyLookup (normalizeKey d.caseSensitive key) d.refs = some (Ref.one p))
    (hb : nodeAt d.tree p = some (PNode.tree "block" bs)) :
    ∃ e, Doc.setItem d key v = (d, some e) ∧
      ((∃ m, e = PyErr.blockAssignError m) ↔ v = PyValue.dict) := by
  have hkb : update_node_value d.tree p v
      = .error (.typeError "Trying to change value type") ∨ v = PyValue.dict
        ∨ (∃ xs, v = PyValue.list xs) := by
    cases v
    case dict => exact Or.inr (Or.inl rfl)
    case list xs => exact Or.inr (Or.inr ⟨xs, rfl⟩)
    all_goals
      refine Or.inl ?_
      unfold update_node_value
      rw [hb]
      rfl
  cases v
  case dict =>
    refine ⟨PyErr.blockAssignError "Trying to assign a new value to an entire block", ?_, ?_⟩
    · simp [Doc.setItem, hd]
    · simp
  case list xs =>
    refine ⟨PyErr.typeError ("Trying to change the type of variable '"
      ++ normalizeKey d.caseSensitive key ++ "'"), ?_, ?_⟩
    · simp [Doc.setItem, hd, Doc.updateListValue, hr]
    · simp
  all_goals
    rcases hkb with hkb | hkb | ⟨xs, hkb⟩ <;> try exact absurd hkb (by simp)
    refine ⟨PyErr.typeError "Trying to change value type", ?_, ?_⟩
    · simp [Doc.setItem, hd, hr, hkb]
    · simp

/-- C4, witness for `c4_block_reassignment`: assigning a string to the
block key `D` of the example document. -/
theorem c4_block_reassignment_witness :
    ∃ e, Doc.setItem exDoc "D" (PyValue.str "x") = (exDoc, some e) ∧
      ((∃ m, e = PyErr.blockAssignError m) ↔ PyValue.str "x" = PyValue.dict) :=
  c4_block_reassignment exDoc "D" (PyValue.str "x") [3, 1] []
    (by decide) (by decide) (by decide)

/-! ### C1 — failure isolation -/

theorem update_node_value_no_valueError (t : PNode) (p : List Nat) (v : PyValue)
    (m : String) :
    update_node_value t p v ≠ Except.error (PyErr.valueError m) := by
  intro h
  unfold update_node_value at h
  cases hno : nodeAt t p with
  | none =>
    rw [hno] at h
    simp at h
  | some nd =>
    rw [hno] at h
    cases nd with
    | token s => simp at h
    | tree dd cs =>
      simp only [] at h
      cases hreg : registryGet dd with
      | none =>
        rw [hreg] at h
        simp at h
      | some hh =>
        rw [hreg] at h
        simp only [] at h
        by_cases htc : hh.type_check v = true
        · rw [if_pos htc] at h
          cases cs with
          | nil => simp at h
          | cons c rest => cases c <;> simp at h
        · rw [if_neg htc] at h
          simp at h

theorem update_node_value_err_kind (t : PNode) (p : List Nat) (v : PyValue) (e : PyErr)
    (h : update_node_value t p v = .error e) : ∀ m, e ≠ PyErr.valueError m := by
  intro m hm
  subst hm
  exact update_node_value_no_valueError t p v m h

theorem updateNodes_err_kind (l : List (List Nat × PyValue)) :
    ∀ (t t' : PNode) (e : PyErr), updateNodes t l = (t', some e) →
      ∀ m, e ≠ PyErr.valueError m := by
  induction l with
  | nil => intro t t' e h m; simp [updateNodes] at h
  | cons pv rest ih =>
    intro t t' e h m
    obtain ⟨p, v⟩ := pv
    unfold updateNodes at h
    cases hu : update_node_value t p v with
    | ok t2 =>
      rw [hu] at h
      exact ih t2 t' e h m
    | error e2 =>
      rw [hu] at h
      injection h with h1 h2
      injection h2 with h2
      rw [← h2]
      exact update_node_value_err_kind t p v e2 hu m

theorem setItem_err_maps (d : Doc) (key : String) (v : PyValue) (d' : Doc) (e : PyErr)
    (h : Doc.setItem d key v = (d', some e)) :
    d'.data = d.data ∧ d'.refs = d.refs ∧ d'.caseSensitive = d.caseSensitive := by
  simp only [Doc.setItem] at h
  repeat' split at h
  all_goals first
    | (injection h with h1 h2; exact Option.noConfusion h2)
    | (injection h with h1 h2; subst h1; exact ⟨rfl, rfl, rfl⟩)

theorem setItem_err_nonlist (d : Doc) (key : String) (v : PyValue) (d' : Doc) (e : PyErr)
    (hv : ∀ xs, v ≠ PyValue.list xs)
    (h : Doc.setItem d key v = (d', some e)) : d' = d := by
  simp only [Doc.setItem] at h
  repeat' split at h
  all_goals first
    | (injection h with h1 h2; exact Option.noConfusion h2)
    | (injection h with h1 h2; subst h1; rfl)
    | exact absurd rfl (hv _)

/-- C1, counterexample: replacing the two-element integer list `A` by the
equal-length list `[10, True]` raises a `TypeError` on the second element,
but the first element's lexeme in the tree has already been rewritten from
`1` to `10` — the tree is not as it was before the call, so partial
mutation is observable. -/
theorem c1_counterexample :
    (Doc.setItem exDoc "A" (PyValue.list [PyValue.int 10, PyValue.bool true])).2
      = some (PyErr.typeError "Trying to change value type") ∧
    nodeAt (Doc.setItem exDoc "A" (PyValue.list [PyValue.int 10, PyValue.bool true])).1.tree
      [0, 1] = some (PNode.tree "integer" [PNode.token "10"]) ∧
    nodeAt exDoc.tree [0, 1] = some (PNode.tree "integer" [PNode.token "1"]) ∧
    (Doc.setItem exDoc "A" (PyValue.list [PyValue.int 10, PyValue.bool true])).1.tree
      ≠ exDoc.tree := by
  refine ⟨by decide, by decide, by decide, by decide⟩

/-- C1 (amended): every error is raised synchronously and leaves the value
map and the reference map exactly as they were; the tree is also unchanged
whenever the failing operation is not a list assignment — a failing scalar
set, a delete of a missing key, and a length-mismatch failure of a list or
slice assignment change nothing — but a failing list or slice assignment
whose per-element type check fails midway leaves the lexemes of the
elements written before the failing element rewritten in the tree, and only
the in-memory list is unchanged. -/
theorem c1_failure_isolation :
    (∀ (d : Doc) (key : String) (v : PyValue) (d' : Doc) (e : PyErr),
        Doc.setItem d key v = (d', some e) →
        d'.data = d.data ∧ d'.refs = d.refs ∧ d'.caseSensitive = d.caseSensitive) ∧
    (∀ (d : Doc) (key : String) (v : PyValue) (d' : Doc) (e : PyErr),
        (∀ xs, v ≠ PyValue.list xs) →
        Doc.setItem d key v = (d', some e) → d' = d) ∧
    (∀ (d : Doc) (key : String),
        pyLookup (normalizeKey d.caseSensitive key) d.data = Option.none →
        Doc.delItem d key
          = (d, some (PyErr.keyError (normalizeKey d.caseSensitive key)))) ∧
    (∀ (tree : PNode) (elems : List PyValue) (refs : List (List Nat))
        (start stop : Option Int) (values : List PyValue)
        (t' : PNode) (elems' : List PyValue) (e : PyErr),
        configListSetSlice tree elems refs start stop values = ((t', elems'), some e) →
        elems' = elems ∧ (∀ m, e = PyErr.valueError m → t' = tree)) ∧
    (∀ (tree : PNode) (elems : List PyValue) (refs : List (List Nat))
        (i : Int) (v : PyValue) (t' : PNode) (elems' : List PyValue) (e : PyErr),
        elems.length = refs.length →
        configListSetIndex tree elems refs i v = ((t', elems'), some e) →
        t' = tree ∧ elems' = elems) := by
  refine ⟨setItem_err_maps, setItem_err_nonlist, ?_, ?_, ?_⟩
  · intro d key h
    simp [Doc.delItem, h]
  · intro tree elems refs start stop values t' elems' e h
    simp only [configListSetSlice] at h
    split at h
    · injection h with h1 h2
      injection h1 with h1a h1b
      subst h1a
      subst h1b
      injection h2 with h2
      subst h2
      exact ⟨rfl, fun m _ => rfl⟩
    · split at h
      · injection h with h1 h2
        exact Option.noConfusion h2
      · rename_i t2 e2 hun
        injection h with h1 h2
        injection h1 with h1a h1b
        subst h1a
        subst h1b
        injection h2 with h2
        subst h2
        exact ⟨rfl, fun m hm => absurd hm (updateNodes_err_kind _ _ _ _ hun m)⟩
  · intro tree elems refs i v t' elems' e hlen h
    simp only [configListSetIndex, hlen] at h
    cases hj : pyListIdx refs.length i with
    | none =>
      rw [hj] at h
      simp only [] at h
      injection h with h1 h2
      injection h1 with h1a h1b
      exact ⟨h1a.symm, h1b.symm⟩
    | some j =>
      rw [hj] at h
      simp only [] at h
      cases hu : update_node_value tree ((refs.get? j).getD []) v with
      | error e2 =>
        rw [hu] at h
        simp only [] at h
        injection h with h1 h2
        injection h1 with h1a h1b
        exact ⟨h1a.symm, h1b.symm⟩
      | ok t2 =>
        rw [hu] at h
        simp only [] at h
        injection h with h1 h2
        exact Option.noConfusion h2

/-- C1, witness for `c1_failure_isolation`: a failing scalar set on the
integer key `B` leaves the example document entirely unchanged. -/
theorem c1_failure_isolation_witness :
    (Doc.setItem exDoc "B" (PyValue.bool false)).1 = exDoc :=
  c1_failure_isolation.2.1 exDoc "B" (PyValue.bool false)
    (Doc.setItem exDoc "B" (PyValue.bool false)).1
    (PyErr.typeError "Trying to change value type")
    (by intro xs; simp) (by decide)

/-! ### C6 — list-length guard -/

theorem normIdx_le (len : Nat) (v : Int) : normIdx len v ≤ len := by
  unfold normIdx
  split
  · split <;> omega
  · split <;> omega

theorem pySliceRange_le (len : Nat) (s t : Option Int) :
    (pySliceRange len s t).1 ≤ len ∧ (pySliceRange len s t).2 ≤ len := by
  unfold pySliceRange
  constructor
  · cases s with
    | none => simp
    | some v => simpa using normIdx_le len v
  · cases t with
    | none => simp
    | some v => simpa using normIdx_le len v

/-- C6: a full-list replacement or a slice assignment whose value count
differs from the number of addressed reference slots fails with the
`LengthMismatch` error (`ValueError`) with the document, tree, and
in-memory list untouched — the check precedes every element write — and
every successful list, slice, or element assignment preserves the element
count, so a bound list can never grow or shrink through assignment. -/
theorem c6_length_guard :
    (∀ (d : Doc) (key : String) (xs : List PyValue) (cur : PyValue) (ps : List (List Nat)),
        pyLookup (normalizeKey d.caseSensitive key) d.data = some cur →
        cur ≠ PyValue.none →
        pyLookup (normalizeKey d.caseSensitive key) d.refs = some (Ref.many ps) →
        ps.length ≠ xs.length →
        Doc.setItem d key (PyValue.list xs)
          = (d, some (PyErr.valueError
              ("Trying to change the length of list '"
                ++ normalizeKey d.caseSensitive key ++ "'")))) ∧
    (∀ (tree : PNode) (elems : List PyValue) (refs : List (List Nat))
        (start stop : Option Int) (values : List PyValue),
        values.length ≠ ((refs.drop (pySliceRange refs.length start stop).1).take
          ((pySliceRange refs.length start stop).2
            - (pySliceRange refs.length start stop).1)).length →
        (configListSetSlice tree elems refs start stop values).1 = (tree, elems) ∧
        ∃ m, (configListSetSlice tree elems refs start stop values).2
          = some (PyErr.valueError m)) ∧
    (∀ (d : Doc) (key : String) (xs : List PyValue) (d' : Doc) (ps : List (List Nat)),
        Doc.setItem d key (PyValue.list xs) = (d', Option.none) →
        pyLookup (normalizeKey d.caseSensitive key) d.refs = some (Ref.many ps) →
        xs.length = ps.length) ∧
    (∀ (tree : PNode) (elems : List PyValue) (refs : List (List Nat))
        (start stop : Option Int) (values : List PyValue)
        (t' : PNode) (elems' : List PyValue),
        elems.length = refs.length →
        configListSetSlice tree elems refs start stop values = ((t', elems'), Option.none) →
        elems'.length = elems.length) ∧
    (∀ (tree : PNode) (elems : List PyValue) (refs : List (List Nat))
        (i : Int) (v : PyValue) (t' : PNode) (elems' : List PyValue),
        configListSetIndex tree elems refs i v = ((t', elems'), Option.none) →
        elems'.length = elems.length) := by
  refine ⟨?_, ?_, ?_, ?_, ?_⟩
  · intro d key xs cur ps hd hn hr hlen
    cases cur
    case none => exact absurd rfl hn
    all_goals
      simp only [Doc.setItem, hd, Doc.updateListValue, hr, if_pos hlen]
  · intro tree elems refs start stop values hlen
    constructor
    · simp only [configListSetSlice]
      rw [if_pos hlen]
    · refine ⟨"Slice assignment would change list length from "
        ++ pyStrOfInt ((refs.drop (pySliceRange refs.length start stop).1).take
          ((pySliceRange refs.length start stop).2
            - (pySliceRange refs.length start stop).1)).length
        ++ " to " ++ pyStrOfInt values.length, ?_⟩
      simp only [configListSetSlice]
      rw [if_pos hlen]
  · intro d key xs d' ps h hr
    by_contra hne
    simp only [Doc.setItem] at h
    cases hd : pyLookup (normalizeKey d.caseSensitive key) d.data with
    | none =>
      rw [hd] at h
      simp only [] at h
      injection h with h1 h2
      exact Option.noConfusion h2
    | some cur =>
      rw [hd] at h
      simp only [] at h
      cases cur
      case none =>
        simp only [] at h
        injection h with h1 h2
        exact Option.noConfusion h2
      all_goals
        simp only [Doc.updateListValue, hr] at h
        rw [if_pos (show ps.length ≠ xs.length from fun he => hne he.symm)] at h
        simp only [] at h
        injection h with h1 h2
        exact Option.noConfusion h2
  · intro tree elems refs start stop values t' elems' hlen h
    simp only [configListSetSlice] at h
    by_cases hg : values.length ≠ ((refs.drop (pySliceRange refs.length start stop).1).take
        ((pySliceRange refs.length start stop).2
          - (pySliceRange refs.length start stop).1)).length
    · rw [if_pos hg] at h
      injection h with h1 h2
      exact Option.noConfusion h2
    · rw [if_neg hg] at h
      have hveq : values.length
          = ((refs.drop (pySliceRange refs.length start stop).1).take
              ((pySliceRange refs.length start stop).2
                - (pySliceRange refs.length start stop).1)).length :=
        not_ne_iff.mp hg
      split at h
      · injection h with h1 h2
        injection h1 with h1a h1b
        rw [← h1b]
        have ha := (pySliceRange_le elems.length start stop).1
        have hb := (pySliceRange_le elems.length start stop).2
        rw [← hlen] at hveq
        simp only [List.length_take, List.length_drop] at hveq
        simp only [List.length_append, List.length_take, List.length_drop]
        omega
      · injection h with h1 h2
        exact Option.noConfusion h2
  · intro tree elems refs i v t' elems' h
    simp only [configListSetIndex] at h
    repeat' split at h
    all_goals first
      | (injection h with h1 h2; exact Option.noConfusion h2)
      | (injection h with h1 h2; injection h1 with h1a h1b; rw [← h1b]; simp)

/-- C6, witness for `c6_length_guard`: replacing the two-element list `A`
of the example document by a one-element list. -/
theorem c6_length_guard_witness :
    Doc.setItem exDoc "A" (PyValue.list [PyValue.int 5])
      = (exDoc, some (PyErr.valueError "Trying to change the length of list 'A'")) :=
  c6_length_guard.1 exDoc "A" [PyValue.int 5]
    (PyValue.list [PyValue.int 1, PyValue.int 2]) [[0, 1], [0, 2]]
    (by decide) (by decide) (by decide) (by decide)

/-! ### C8 — key-case normalisation -/

theorem setItem_caseSensitive (d : Doc) (key : String) (v : PyValue) :
    (Doc.setItem d key v).1.caseSensitive = d.caseSensitive := by
  simp only [Doc.setItem]
  repeat' split
  all_goals rfl

theorem setItem_success_lookup (d : Doc) (key : String) (v : PyValue) (d' : Doc)
    (h : Doc.setItem d key v = (d', Option.none)) :
    pyLookup (normalizeKey d.caseSensitive key) d'.data = some v := by
  simp only [Doc.setItem] at h
  cases hd : pyLookup (normalizeKey d.caseSensitive key) d.data with
  | none =>
    rw [hd] at h
    try simp only [] at h
    injection h with h1 h2
    exact Option.noConfusion h2
  | some cur =>
    rw [hd] at h
    try simp only [] at h
    cases cur
    case none =>
      cases v <;> try simp only [] at h
      case none =>
        injection h with h1 h2
        rw [← h1]
        exact hd
      all_goals
        injection h with h1 h2
        exact Option.noConfusion h2
    all_goals
      cases v <;> try simp only [] at h
      case dict =>
        injection h with h1 h2
        exact Option.noConfusion h2
      case list xs =>
        split at h
        · injection h with h1 h2
          rw [← h1]
          simp [pyLookup_pySet]
        · injection h with h1 h2
          exact Option.noConfusion h2
      all_goals
        cases hr : pyLookup (normalizeKey d.caseSensitive key) d.refs with
        | none =>
          rw [hr] at h
          try simp only [] at h
          injection h with h1 h2
          exact Option.noConfusion h2
        | some ref =>
          rw [hr] at h
          try simp only [] at h
          cases ref with
          | many ps =>
            injection h with h1 h2
            exact Option.noConfusion h2
          | one p =>
            try simp only [] at h
            split at h
            · injection h with h1 h2
              rw [← h1]
              simp [pyLookup_pySet]
            · injection h with h1 h2
              exact Option.noConfusion h2

/-- C8, counterexample: with case-insensitive keys the stored key is `B`,
and `get("b")` finds it (``__getitem__`` normalises), but `"b" in config`
is `False` — `Config` does not override `dict.__contains__`, so the
membership test does not apply the normalization rule the claim says is
applied identically by contains. -/
theorem c8_counterexample :
    exDoc.caseSensitive = false ∧
    Doc.getItem exDoc "b" = some (PyValue.int 7) ∧
    Doc.contains exDoc "b" = false ∧
    Doc.contains exDoc "B" = true := by
  refine ⟨by decide, by decide, by decide, by decide⟩

/-- C8 (amended): the single normalization rule (upper-case the key iff
keys are case-insensitive) is applied identically by interpretation
(`_get_key`), `get`, `set`, and `delete` — so with case-insensitive keys
any two spellings with the same upper-casing address the same entry, and
`set(k1, v)` then `get(k2)` returns `v`; with case-sensitive keys
differently-cased keys address distinct entries.  The membership test
(`in`) is the exception: `dict.__contains__` is not overridden and uses
the raw key. -/
theorem c8_normalization :
    (∀ (d : Doc) (k1 k2 : String) (v : PyValue),
        normalizeKey d.caseSensitive k1 = normalizeKey d.caseSensitive k2 →
        Doc.getItem d k1 = Doc.getItem d k2 ∧
        Doc.setItem d k1 v = Doc.setItem d k2 v ∧
        Doc.delItem d k1 = Doc.delItem d k2) ∧
    (∀ (d : Doc) (k1 k2 : String) (v : PyValue) (d' : Doc),
        d.caseSensitive = false → pyUpper k1 = pyUpper k2 →
        Doc.setItem d k1 v = (d', Option.none) →
        Doc.getItem d' k2 = some v) ∧
    (∀ keyName : String,
        get_key false [PNode.tree "key" [PNode.token keyName]]
          = Except.ok (pyUpper keyName) ∧
        get_key true [PNode.tree "key" [PNode.token keyName]]
          = Except.ok keyName) ∧
    (Doc.getItem exCsDoc "Foo" = some (PyValue.int 1) ∧
     Doc.getItem exCsDoc "FOO" = some (PyValue.int 2)) ∧
    (Doc.contains exDoc "b" = false ∧ (Doc.getItem exDoc "b").isSome = true) := by
  refine ⟨?_, ?_, ?_, ⟨by decide, by decide⟩, ⟨by decide, by decide⟩⟩
  · intro d k1 k2 v hnorm
    refine ⟨?_, ?_, ?_⟩
    · simp only [Doc.getItem, hnorm]
    · simp only [Doc.setItem, Doc.updateListValue, hnorm]
    · simp only [Doc.delItem, hnorm]
  · intro d k1 k2 v d' hcs hup h
    have hk : normalizeKey d.caseSensitive k2 = normalizeKey d.caseSensitive k1 := by
      simp [normalizeKey, hcs, hup]
    have hl := setItem_success_lookup d k1 v d' h
    have hcs' : d'.caseSensitive = d.caseSensitive := by
      have hpres := setItem_caseSensitive d k1 v
      rw [h] at hpres
      exact hpres
    simpa [Doc.getItem, hcs', hk] using hl
  · intro keyName
    constructor <;> simp [get_key, hasTokenChild, keyChildSel, List.filterMap]

/-- C8, witness for `c8_normalization`: `set("b", 8)` then `get("B")`
on the case-insensitive example document returns the new value. -/
theorem c8_normalization_witness :
    Doc.getItem (Doc.setItem exDoc "b" (PyValue.int 8)).1 "B" = some (PyValue.int 8) :=
  c8_normalization.2.1 exDoc "b" "B" (PyValue.int 8)
    (Doc.setItem exDoc "b" (PyValue.int 8)).1
    (by decide) (by decide) (by decide)

/-! ### C5 — delete -/

theorem parentPath_ne (rp : List Nat) (h : rp ≠ []) : parentPath rp = some rp.dropLast := by
  cases rp with
  | nil => exact absurd rfl h
  | cons a as => rfl

theorem find_rule_node_of_spec (t : PNode) (ref : Ref) (rp : List Nat)
    (h : RulePathSpec t ref rp) : find_rule_node t ref = some rp := by
  rcases h with ⟨q, qs, rfl, hq, rfl⟩ | ⟨q, dd, cs, rfl, hn, hs, rfl⟩
    | ⟨q, dd, cs, rfl, hn, hs, hq, rfl⟩
  · unfold find_rule_node
    exact parentPath_ne q hq
  · unfold find_rule_node
    simp only [hn, hs, if_true]
  · unfold find_rule_node
    simp only [hn, hs, Bool.false_eq_true, if_false]
    exact parentPath_ne q hq

theorem delItem_valid (d : Doc) (key : String) (v : PyValue) (ref : Ref)
    (rp : List Nat) (rule : PNode) (pd : String) (sibs : List PNode)
    (hv : pyLookup (normalizeKey d.caseSensitive key) d.data = some v)
    (hr : pyLookup (normalizeKey d.caseSensitive key) d.refs = some ref)
    (hspec : RulePathSpec d.tree ref rp)
    (hrule : nodeAt d.tree rp = some rule)
    (hne : rp ≠ [])
    (hpar : nodeAt d.tree rp.dropLast = some (PNode.tree pd sibs))
    (hmem : rule ∈ sibs) :
    Doc.delItem d key =
      ({ tree := modifyAt d.tree rp.dropLast (fun n =>
            match n with
            | PNode.tree dd cs => PNode.tree dd (removeFirstBeq cs rule)
            | t => t),
         data := pyDel d.data (normalizeKey d.caseSensitive key),
         refs := pyDel d.refs (normalizeKey d.caseSensitive key),
         caseSensitive := d.caseSensitive }, Option.none) := by
  have hfr := find_rule_node_of_spec d.tree ref rp hspec
  have hpp : parentPath rp = some rp.dropLast := parentPath_ne rp hne
  have hany : (sibs.any fun c => PNode.beq c rule) = true :=
    List.any_eq_true.mpr ⟨rule, hmem, PNode.beq_self rule⟩
  simp only [Doc.delItem, hv, hr, hfr, hrule, hpp, hpar, hany, if_true]

/-- C5: `delete(key)` removes the key's entries from both the value map
and the reference map, and detaches from its parent's child sequence the
owning rule node determined by the reference kind — for a list reference,
the parent of the first element node; for a reference to a node whose rule
name starts with `key_` (a null reference), the node itself; for scalar
and block references, the parent of the stored node.  Deleting a key that
does not exist fails with `KeyNotFound` and changes nothing. -/
theorem c5_delete (d : Doc) (key : String) :
    (pyLookup (normalizeKey d.caseSensitive key) d.data = Option.none →
      Doc.delItem d key = (d, some (PyErr.keyError (normalizeKey d.caseSensitive key)))) ∧
    (∀ (v : PyValue) (ref : Ref) (rp : List Nat) (rule : PNode)
        (pd : String) (sibs : List PNode),
      pyLookup (normalizeKey d.caseSensitive key) d.data = some v →
      pyLookup (normalizeKey d.caseSensitive key) d.refs = some ref →
      RulePathSpec d.tree ref rp →
      nodeAt d.tree rp = some rule →
      rp ≠ [] →
      nodeAt d.tree rp.dropLast = some (PNode.tree pd sibs) →
      rule ∈ sibs →
      Doc.delItem d key =
        ({ tree := modifyAt d.tree rp.dropLast (fun n =>
              match n with
              | PNode.tree dd cs => PNode.tree dd (removeFirstBeq cs rule)
              | t => t),
           data := pyDel d.data (normalizeKey d.caseSensitive key),
           refs := pyDel d.refs (normalizeKey d.caseSensitive key),
           caseSensitive := d.caseSensitive }, Option.none)) := by
  constructor
  · intro h
    simp [Doc.delItem, h]
  · intro v ref rp rule pd sibs hv hr hspec hrule hne hpar hmem
    exact delItem_valid d key v ref rp rule pd sibs hv hr hspec hrule hne hpar hmem

/-- C5, witness for `c5_delete`: deleting the null key `C` of the example
document (a `key_null` reference: the rule node is the referenced node
itself). -/
theorem c5_delete_witness :
    Doc.delItem exDoc "C" =
      ({ tree := modifyAt exDoc.tree ([2] : List Nat).dropLast (fun n =>
            match n with
            | PNode.tree dd cs => PNode.tree dd (removeFirstBeq cs
                (PNode.tree "key_null" [PNode.tree "key" [PNode.token "C"]]))
            | t => t),
         data := pyDel exDoc.data (normalizeKey exDoc.caseSensitive "C"),
         refs := pyDel exDoc.refs (normalizeKey exDoc.caseSensitive "C"),
         caseSensitive := exDoc.caseSensitive }, Option.none) :=
  (c5_delete exDoc "C").2 PyValue.none (Ref.one [2]) [2]
    (PNode.tree "key_null" [PNode.tree "key" [PNode.token "C"]]) "start"
    [PNode.tree "key_list" [
        PNode.tree "key" [PNode.token "A"],
        PNode.tree "integer" [PNode.token "1"],
        PNode.tree "integer" [PNode.token "2"]],
      PNode.tree "key_value" [
        PNode.tree "key" [PNode.token "B"],
        PNode.tree "integer" [PNode.token "7"]],
      PNode.tree "key_null" [
        PNode.tree "key" [PNode.token "C"]],
      PNode.tree "key_block" [
        PNode.tree "key" [PNode.token "D"],
        PNode.tree "block" []],
      PNode.tree "key_value" [
        PNode.tree "key" [PNode.token "E"],
        PNode.tree "double" [PNode.token "1.000000D-08"]],
      PNode.tree "key_value" [
        PNode.tree "key" [PNode.token "F"],
        PNode.tree "logical" [PNode.token ".true."]]]
    (by decide) (by decide)
    (Or.inr (Or.inl ⟨[2], "key_null", [PNode.tree "key" [PNode.token "C"]],
      rfl, by decide, by decide, rfl⟩))
    (by decide) (by decide) (by decide) (by decide)

/-! ### C3 — duplicate keys and iteration order -/

theorem registryGet_key : registryGet "key" = Option.none := rfl

theorem ne_key_of_registry (r : String) (h : ValueTypeHandler)
    (hr : registryGet r = some h) : r ≠ "key" := by
  intro he
  rw [he, registryGet_key] at hr
  exact Option.noConfusion hr

theorem hasTokenChild_map (r : String) (lxs : List String) :
    hasTokenChild (lxs.map (fun lx => PNode.tree r [PNode.token lx])) = false := by
  induction lxs with
  | nil => rfl
  | cons lx rest ih => simpa [hasTokenChild] using ih

theorem valueChildRefs_map (r : String) (h : ValueTypeHandler) (hr : registryGet r = some h)
    (lxs : List String) (path : List Nat) :
    ∀ i, valueChildRefs (lxs.map (fun lx => PNode.tree r [PNode.token lx])) path i
      = vcrList r path lxs i := by
  induction lxs with
  | nil => intro i; rfl
  | cons lx rest ih =>
    intro i
    simp only [List.map_cons, valueChildRefs, hr, Option.isSome_some, if_true]
    rw [ih]
    rfl

theorem vcrList_length (r : String) (path : List Nat) :
    ∀ (lxs : List String) (i : Nat), (vcrList r path lxs i).length = lxs.length := by
  intro lxs
  induction lxs with
  | nil => intro i; rfl
  | cons lx rest ih => intro i; simp [vcrList, ih]

theorem vcrList_paths (r : String) (path : List Nat) :
    ∀ (lxs : List String) (i : Nat),
      (vcrList r path lxs i).map (fun x => x.2.2) = listPaths path i lxs.length := by
  intro lxs
  induction lxs with
  | nil => intro i; rfl
  | cons lx rest ih => intro i; simp [vcrList, listPaths, ih]

theorem vcrList_mapM (r : String) (h : ValueTypeHandler) (hr : registryGet r = some h)
    (path : List Nat) :
    ∀ (lxs : List String) (i : Nat),
      (vcrList r path lxs i).mapM fromTokenChild = Except.ok (lxs.map h.from_token) := by
  intro lxs
  induction lxs with
  | nil => intro i; rfl
  | cons lx rest ih =>
    intro i
    rw [vcrList, List.mapM_cons, ih (i + 1)]
    simp only [fromTokenChild, hr]
    rfl

theorem transform_values_list (r : String) (h : ValueTypeHandler)
    (hr : registryGet r = some h) (k : String) (lxs : List String) (path : List Nat)
    (hne : lxs ≠ []) :
    transform_values (PNode.tree "key" [PNode.token k]
        :: lxs.map (fun lx => PNode.tree r [PNode.token lx])) path
      = Except.ok (lxs.map h.from_token, listPaths path 1 lxs.length) := by
  have htc : hasTokenChild (PNode.tree "key" [PNode.token k]
      :: lxs.map (fun lx => PNode.tree r [PNode.token lx])) = false := by
    simpa [hasTokenChild] using hasTokenChild_map r lxs
  have hvcr : valueChildRefs (PNode.tree "key" [PNode.token k]
      :: lxs.map (fun lx => PNode.tree r [PNode.token lx])) path 0
      = vcrList r path lxs 1 := by
    simp only [valueChildRefs, registryGet_key, Option.isSome_none, Bool.false_eq_true,
      if_false]
    exact valueChildRefs_map r h hr lxs path 1
  have hlen : (vcrList r path lxs 1).length = lxs.length := vcrList_length r path lxs 1
  have hnz : ¬ (vcrList r path lxs 1).length = 0 := by
    rw [hlen]
    simpa using hne
  simp only [transform_values, htc, Bool.false_eq_true, if_false, hvcr, hnz,
    vcrList_mapM r h hr path lxs 1, vcrList_paths r path lxs 1]
  rfl

theorem get_key_cons (csKeys : Bool) (k : String) (others : List PNode)
    (htc : hasTokenChild others = false)
    (hno : others.filterMap keyChildSel = []) :
    get_key csKeys (PNode.tree "key" [PNode.token k] :: others)
      = Except.ok (if csKeys then k else pyUpper k) := by
  have htc2 : hasTokenChild (PNode.tree "key" [PNode.token k] :: others) = false := by
    simp only [hasTokenChild, List.any_cons] at htc ⊢
    simpa using htc
  simp [get_key, htc2, keyChildSel, List.filterMap_cons, hno]

theorem filterMap_keySel_map (r : String) (hrk : r ≠ "key") (lxs : List String) :
    (lxs.map (fun lx => PNode.tree r [PNode.token lx])).filterMap keyChildSel = [] := by
  induction lxs with
  | nil => rfl
  | cons lx rest ih => simpa [keyChildSel, hrk] using ih

theorem visitNode_stmt (csKeys : Bool) (acc : Interp) (s : Stmt) (path : List Nat)
    (hok : stmtOk s = true) :
    visitNode csKeys acc (asTree s) path
      = Except.ok (pySet acc.1 (stmtKey csKeys s) (stmtValue s),
                   pySet acc.2 (stmtKey csKeys s) (stmtRef path s)) := by
  cases s with
  | val k r lx =>
    simp only [stmtOk] at hok
    obtain ⟨h, hr⟩ := Option.isSome_iff_exists.mp hok
    have hrk := ne_key_of_registry r h hr
    have htv := transform_values_list r h hr k [lx] path (by simp)
    simp only [List.map_cons, List.map_nil, listPaths] at htv
    have hgk := get_key_cons csKeys k [PNode.tree r [PNode.token lx]]
      (by simp [hasTokenChild]) (by simp [keyChildSel, hrk])
    simp only [asTree, visitNode, if_true]
    rw [hgk]
    simp only [transform_value, htv, stmtKey, stmtRawKey, stmtValue, stmtRef, hr,
      Option.getD_some]
    rfl
  | listS k r lxs =>
    simp only [stmtOk, Bool.and_eq_true] at hok
    obtain ⟨h, hr⟩ := Option.isSome_iff_exists.mp hok.1
    have hne : lxs ≠ [] := by
      have h2 := hok.2
      simpa [List.isEmpty_iff] using h2
    have hrk := ne_key_of_registry r h hr
    have htv := transform_values_list r h hr k lxs path hne
    have hgk := get_key_cons csKeys k (lxs.map (fun lx => PNode.tree r [PNode.token lx]))
      (hasTokenChild_map r lxs) (filterMap_keySel_map r hrk lxs)
    simp only [asTree, visitNode, if_true]
    rw [hgk]
    simp only [htv, stmtKey, stmtRawKey, stmtValue, stmtRef, hr, Option.getD_some]
    rfl
  | blockS k =>
    have hgk := get_key_cons csKeys k [PNode.tree "block" []]
      (by simp [hasTokenChild]) (by simp [keyChildSel])
    simp only [asTree, visitNode, if_true]
    rw [hgk]
    simp only [visitBlockChild, if_true, visitNode, visitChildren, stmtKey, stmtRawKey,
      stmtValue, stmtRef]
    rfl
  | nullS k =>
    have hgk := get_key_cons csKeys k [] (by rfl) (by rfl)
    simp only [asTree, visitNode, if_true]
    rw [hgk]
    simp only [stmtKey, stmtRawKey, stmtValue, stmtRef]
    rfl

theorem visitChildren_stmts (csKeys : Bool) :
    ∀ (stmts : List Stmt) (i : Nat) (acc : Interp),
      (∀ s ∈ stmts, stmtOk s = true) →
      visitChildren csKeys acc (stmts.map asTree) [] i
        = Except.ok (foldEntries (stmtEntries csKeys i stmts) acc) := by
  intro stmts
  induction stmts with
  | nil => intro i acc hok; rfl
  | cons s rest ih =>
    intro i acc hok
    have hs := hok s (List.mem_cons_self s rest)
    cases s with
    | val k r lx =>
      have hvn := visitNode_stmt csKeys acc (Stmt.val k r lx) [i] hs
      simp only [asTree] at hvn
      simp only [List.map_cons, asTree, visitChildren, List.nil_append]
      rw [hvn]
      exact ih (i + 1)
        (pySet acc.1 (stmtKey csKeys (Stmt.val k r lx)) (stmtValue (Stmt.val k r lx)),
         pySet acc.2 (stmtKey csKeys (Stmt.val k r lx)) (stmtRef [i] (Stmt.val k r lx)))
        (fun t ht => hok t (List.mem_cons_of_mem _ ht))
    | listS k r lxs =>
      have hvn := visitNode_stmt csKeys acc (Stmt.listS k r lxs) [i] hs
      simp only [asTree] at hvn
      simp only [List.map_cons, asTree, visitChildren, List.nil_append]
      rw [hvn]
      exact ih (i + 1)
        (pySet acc.1 (stmtKey csKeys (Stmt.listS k r lxs)) (stmtValue (Stmt.listS k r lxs)),
         pySet acc.2 (stmtKey csKeys (Stmt.listS k r lxs)) (stmtRef [i] (Stmt.listS k r lxs)))
        (fun t ht => hok t (List.mem_cons_of_mem _ ht))
    | blockS k =>
      have hvn := visitNode_stmt csKeys acc (Stmt.blockS k) [i] hs
      simp only [asTree] at hvn
      simp only [List.map_cons, asTree, visitChildren, List.nil_append]
      rw [hvn]
      exact ih (i + 1)
        (pySet acc.1 (stmtKey csKeys (Stmt.blockS k)) (stmtValue (Stmt.blockS k)),
         pySet acc.2 (stmtKey csKeys (Stmt.blockS k)) (stmtRef [i] (Stmt.blockS k)))
        (fun t ht => hok t (List.mem_cons_of_mem _ ht))
    | nullS k =>
      have hvn := visitNode_stmt csKeys acc (Stmt.nullS k) [i] hs
      simp only [asTree] at hvn
      simp only [List.map_cons, asTree, visitChildren, List.nil_append]
      rw [hvn]
      exact ih (i + 1)
        (pySet acc.1 (stmtKey csKeys (Stmt.nullS k)) (stmtValue (Stmt.nullS k)),
         pySet acc.2 (stmtKey csKeys (Stmt.nullS k)) (stmtRef [i] (Stmt.nullS k)))
        (fun t ht => hok t (List.mem_cons_of_mem _ ht))

theorem foldEntries_lookup_fst :
    ∀ (entries : List (String × PyValue × Ref)) (acc : Interp) (k : String),
      pyLookup k (foldEntries entries acc).1
        = (lastFind entries k).elim (pyLookup k acc.1) (fun vr => some vr.1) := by
  intro entries
  induction entries with
  | nil => intro acc k; rfl
  | cons e rest ih =>
    intro acc k
    obtain ⟨k', v', r'⟩ := e
    simp only [foldEntries, lastFind]
    rw [ih]
    cases hlf : lastFind rest k with
    | some x => simp [hlf]
    | none =>
      simp only [hlf, Option.elim]
      rw [pyLookup_pySet]
      by_cases hk : k = k'
      · subst hk; simp
      · have hke : ¬ k' = k := fun he => hk he.symm
        simp [hk, hke]

theorem foldEntries_lookup_snd :
    ∀ (entries : List (String × PyValue × Ref)) (acc : Interp) (k : String),
      pyLookup k (foldEntries entries acc).2
        = (lastFind entries k).elim (pyLookup k acc.2) (fun vr => some vr.2) := by
  intro entries
  induction entries with
  | nil => intro acc k; rfl
  | cons e rest ih =>
    intro acc k
    obtain ⟨k', v', r'⟩ := e
    simp only [foldEntries, lastFind]
    rw [ih]
    cases hlf : lastFind rest k with
    | some x => simp [hlf]
    | none =>
      simp only [hlf, Option.elim]
      rw [pyLookup_pySet]
      by_cases hk : k = k'
      · subst hk; simp
      · have hke : ¬ k' = k := fun he => hk he.symm
        simp [hk, hke]

theorem foldEntries_keys :
    ∀ (entries : List (String × PyValue × Ref)) (acc : Interp),
      pyKeys (foldEntries entries acc).1
        = (entries.map Prod.fst).foldl insKey (pyKeys acc.1) ∧
      pyKeys (foldEntries entries acc).2
        = (entries.map Prod.fst).foldl insKey (pyKeys acc.2) := by
  intro entries
  induction entries with
  | nil => intro acc; exact ⟨rfl, rfl⟩
  | cons e rest ih =>
    intro acc
    obtain ⟨k', v', r'⟩ := e
    simp only [foldEntries, List.map_cons, List.foldl_cons]
    constructor
    · rw [(ih _).1, pyKeys_pySet]
    · rw [(ih _).2, pyKeys_pySet]

/-- C3: for any one-level block of well-formed statements, interpretation
succeeds, and when a key occurs more than once, the stored value and tree
reference are those of the last occurrence (Python dict assignment
semantics — last-write-wins, not an error), while the key iteration order
of the resulting document is the order of each key's first occurrence. -/
theorem c3_duplicate_keys (csKeys : Bool) (rootName : String) (stmts : List Stmt)
    (h1 : rootName ≠ "key_list") (h2 : rootName ≠ "key_value")
    (h3 : rootName ≠ "key_block") (h4 : rootName ≠ "key_null")
    (hok : ∀ s ∈ stmts, stmtOk s = true) :
    ∃ doc, Doc.build (PNode.tree rootName (stmts.map asTree)) csKeys = Except.ok doc ∧
      (∀ k, pyLookup k doc.data
        = (lastFind (stmtEntries csKeys 0 stmts) k).elim Option.none (fun vr => some vr.1)) ∧
      (∀ k, pyLookup k doc.refs
        = (lastFind (stmtEntries csKeys 0 stmts) k).elim Option.none (fun vr => some vr.2)) ∧
      pyKeys doc.data = firstOcc ((stmtEntries csKeys 0 stmts).map Prod.fst) ∧
      pyKeys doc.refs = firstOcc ((stmtEntries csKeys 0 stmts).map Prod.fst) := by
  have hvc := visitChildren_stmts csKeys stmts 0 (([], []) : Interp) hok
  have hvn : visitNode csKeys (([], []) : Interp)
      (PNode.tree rootName (stmts.map asTree)) []
      = Except.ok (foldEntries (stmtEntries csKeys 0 stmts) ([], [])) := by
    simp only [visitNode, if_neg h1, if_neg h2, if_neg h3, if_neg h4]
    exact hvc
  refine ⟨⟨PNode.tree rootName (stmts.map asTree),
    (foldEntries (stmtEntries csKeys 0 stmts) ([], [])).1,
    (foldEntries (stmtEntries csKeys 0 stmts) ([], [])).2, csKeys⟩, ?_, ?_, ?_, ?_, ?_⟩
  · unfold Doc.build
    rw [hvn]
    rfl
  · intro k
    exact foldEntries_lookup_fst (stmtEntries csKeys 0 stmts) ([], []) k
  · intro k
    exact foldEntries_lookup_snd (stmtEntries csKeys 0 stmts) ([], []) k
  · exact (foldEntries_keys (stmtEntries csKeys 0 stmts) ([], [])).1
  · exact (foldEntries_keys (stmtEntries csKeys 0 stmts) ([], [])).2

/-- C3, witness for `c3_duplicate_keys`: a block with a duplicated
(case-folded) key `x`/`X` and a second key `y`. -/
theorem c3_duplicate_keys_witness :
    ∃ doc, Doc.build (PNode.tree "start"
        ([Stmt.val "x" "integer" "1", Stmt.val "X" "integer" "2",
          Stmt.nullS "y"].map asTree)) false = Except.ok doc ∧
      (∀ k, pyLookup k doc.data
        = (lastFind (stmtEntries false 0
            [Stmt.val "x" "integer" "1", Stmt.val "X" "integer" "2",
             Stmt.nullS "y"]) k).elim Option.none (fun vr => some vr.1)) ∧
      (∀ k, pyLookup k doc.refs
        = (lastFind (stmtEntries false 0
            [Stmt.val "x" "integer" "1", Stmt.val "X" "integer" "2",
             Stmt.nullS "y"]) k).elim Option.none (fun vr => some vr.2)) ∧
      pyKeys doc.data = firstOcc ((stmtEntries false 0
        [Stmt.val "x" "integer" "1", Stmt.val "X" "integer" "2",
         Stmt.nullS "y"]).map Prod.fst) ∧
      pyKeys doc.refs = firstOcc ((stmtEntries false 0
        [Stmt.val "x" "integer" "1", Stmt.val "X" "integer" "2",
         Stmt.nullS "y"]).map Prod.fst) :=
  c3_duplicate_keys false "start"
    [Stmt.val "x" "integer" "1", Stmt.val "X" "integer" "2", Stmt.nullS "y"]
    (by decide) (by decide) (by decide) (by decide) (by decide)

/-! ### C9 — the two key sets stay identical -/

mutual

theorem visitNode_sync : ∀ (cs : Bool) (acc : Interp) (n : PNode) (path : List Nat)
    (out : Interp), visitNode cs acc n path = Except.ok out →
    pyKeys acc.1 = pyKeys acc.2 → pyKeys out.1 = pyKeys out.2
  | cs, acc, PNode.token s, path, out => fun h hs => by
      have h2 : acc = out := by injection h
      rw [← h2]
      exact hs
  | cs, acc, PNode.tree d children, path, out => fun h hs => by
      simp only [visitNode] at h
      by_cases h1 : d = "key_list"
      · rw [if_pos h1] at h
        cases hk : get_key cs children with
        | error e => rw [hk] at h; exact Except.noConfusion h
        | ok key =>
          rw [hk] at h
          have h2 : (do
              let vr ← transform_values children path
              Except.ok (pySet acc.1 key (PyValue.list vr.1), pySet acc.2 key (Ref.many vr.2))
              : Except PyErr Interp) = Except.ok out := h
          cases htv : transform_values children path with
          | error e => rw [htv] at h2; exact Except.noConfusion h2
          | ok vr =>
            rw [htv] at h2
            have h3 : (pySet acc.1 key (PyValue.list vr.1),
                pySet acc.2 key (Ref.many vr.2)) = out := by injection h2
            rw [← h3]
            simp only [pyKeys_pySet]
            rw [hs]
      · rw [if_neg h1] at h
        by_cases h2 : d = "key_value"
        · rw [if_pos h2] at h
          cases hk : get_key cs children with
          | error e => rw [hk] at h; exact Except.noConfusion h
          | ok key =>
            rw [hk] at h
            have h3 : (do
                let vr ← transform_value children path
                Except.ok (pySet acc.1 key vr.1, pySet acc.2 key (Ref.one vr.2))
                : Except PyErr Interp) = Except.ok out := h
            cases htv : transform_value children path with
            | error e => rw [htv] at h3; exact Except.noConfusion h3
            | ok vr =>
              rw [htv] at h3
              have h4 : (pySet acc.1 key vr.1, pySet acc.2 key (Ref.one vr.2)) = out := by
                injection h3
              rw [← h4]
              simp only [pyKeys_pySet]
              rw [hs]
        · rw [if_neg h2] at h
          by_cases h3 : d = "key_block"
          · rw [if_pos h3] at h
            cases hk : get_key cs children with
            | error e => rw [hk] at h; exact Except.noConfusion h
            | ok key =>
              rw [hk] at h
              have h4 : visitBlockChild cs acc key children path 0 = Except.ok out := h
              exact visitBlockChild_sync cs acc key children path 0 out h4 hs
          · rw [if_neg h3] at h
            by_cases h4 : d = "key_null"
            · rw [if_pos h4] at h
              cases hk : get_key cs children with
              | error e => rw [hk] at h; exact Except.noConfusion h
              | ok key =>
                rw [hk] at h
                have h5 : (pySet acc.1 key PyValue.none,
                    pySet acc.2 key (Ref.one path)) = out := by injection h
                rw [← h5]
                simp only [pyKeys_pySet]
                rw [hs]
            · rw [if_neg h4] at h
              exact visitChildren_sync cs acc children path 0 out h hs

theorem visitBlockChild_sync : ∀ (cs : Bool) (acc : Interp) (key : String)
    (l : List PNode) (path : List Nat) (i : Nat) (out : Interp),
    visitBlockChild cs acc key l path i = Except.ok out →
    pyKeys acc.1 = pyKeys acc.2 → pyKeys out.1 = pyKeys out.2
  | cs, acc, key, [], path, i, out => fun h hs => by
      have h2 : acc = out := by injection h
      rw [← h2]
      exact hs
  | cs, acc, key, PNode.token s :: rest, path, i, out => fun h hs => by
      exact Except.noConfusion h
  | cs, acc, key, PNode.tree d cs2 :: rest, path, i, out => fun h hs => by
      simp only [visitBlockChild] at h
      by_cases hd : d = "block"
      · rw [if_pos hd] at h
        cases hn : visitNode cs (([], []) : Interp) (PNode.tree d cs2) [] with
        | error e => rw [hn] at h; exact Except.noConfusion h
        | ok nested =>
          rw [hn] at h
          have h2 : (pySet acc.1 key PyValue.dict,
              pySet acc.2 key (Ref.one (path ++ [i]))) = out := by injection h
          rw [← h2]
          simp only [pyKeys_pySet]
          rw [hs]
      · rw [if_neg hd] at h
        exact visitBlockChild_sync cs acc key rest path (i + 1) out h hs

theorem visitChildren_sync : ∀ (cs : Bool) (acc : Interp) (l : List PNode)
    (path : List Nat) (i : Nat) (out : Interp),
    visitChildren cs acc l path i = Except.ok out →
    pyKeys acc.1 = pyKeys acc.2 → pyKeys out.1 = pyKeys out.2
  | cs, acc, [], path, i, out => fun h hs => by
      have h2 : acc = out := by injection h
      rw [← h2]
      exact hs
  | cs, acc, PNode.token s :: rest, path, i, out => fun h hs => by
      have h2 : visitChildren cs acc rest path (i + 1) = Except.ok out := h
      exact visitChildren_sync cs acc rest path (i + 1) out h2 hs
  | cs, acc, PNode.tree d cs2 :: rest, path, i, out => fun h hs => by
      simp only [visitChildren] at h
      cases hn : visitNode cs acc (PNode.tree d cs2) (path ++ [i]) with
      | error e => rw [hn] at h; exact Except.noConfusion h
      | ok acc2 =>
        rw [hn] at h
        have h2 : visitChildren cs acc2 rest path (i + 1) = Except.ok out := h
        exact visitChildren_sync cs acc2 rest path (i + 1) out h2
          (visitNode_sync cs acc (PNode.tree d cs2) (path ++ [i]) acc2 hn hs)

end

theorem setItem_refs (d : Doc) (key : String) (v : PyValue) :
    (Doc.setItem d key v).1.refs = d.refs := by
  simp only [Doc.setItem]
  repeat' split
  all_goals rfl

theorem setItem_success_keys (d : Doc) (key : String) (v : PyValue) (d' : Doc)
    (h : Doc.setItem d key v = (d', Option.none)) : pyKeys d'.data = pyKeys d.data := by
  simp only [Doc.setItem] at h
  cases hd : pyLookup (normalizeKey d.caseSensitive key) d.data with
  | none =>
    rw [hd] at h
    try simp only [] at h
    injection h with h1 h2
    exact Option.noConfusion h2
  | some cur =>
    rw [hd] at h
    try simp only [] at h
    have hmem : normalizeKey d.caseSensitive key ∈ pyKeys d.data :=
      (pyLookup_isSome_iff_mem d.data (normalizeKey d.caseSensitive key)).mp
        (by rw [hd]; rfl)
    cases cur
    case none =>
      cases v <;> try simp only [] at h
      case none =>
        injection h with h1 h2
        rw [← h1]
      all_goals
        injection h with h1 h2
        exact Option.noConfusion h2
    all_goals
      cases v <;> try simp only [] at h
      case dict =>
        injection h with h1 h2
        exact Option.noConfusion h2
      case list xs =>
        split at h
        · injection h with h1 h2
          rw [← h1]
          simp only []
          rw [pyKeys_pySet, insKey, if_pos hmem]
        · injection h with h1 h2
          exact Option.noConfusion h2
      all_goals
        cases hr : pyLookup (normalizeKey d.caseSensitive key) d.refs with
        | none =>
          rw [hr] at h
          try simp only [] at h
          injection h with h1 h2
          exact Option.noConfusion h2
        | some ref =>
          rw [hr] at h
          try simp only [] at h
          cases ref with
          | many ps =>
            injection h with h1 h2
            exact Option.noConfusion h2
          | one p =>
            try simp only [] at h
            split at h
            · injection h with h1 h2
              rw [← h1]
              simp only []
              rw [pyKeys_pySet, insKey, if_pos hmem]
            · injection h with h1 h2
              exact Option.noConfusion h2

theorem delItem_subsets (d : Doc) (key : String) :
    pyKeys (Doc.delItem d key).1.data ⊆ pyKeys d.data ∧
    pyKeys (Doc.delItem d key).1.refs ⊆ pyKeys d.refs := by
  have hsub1 : pyKeys (pyDel d.data (normalizeKey d.caseSensitive key)) ⊆ pyKeys d.data := by
    rw [pyKeys_pyDel]
    exact fun x hx => List.mem_of_mem_filter hx
  have hsub2 : pyKeys (pyDel d.refs (normalizeKey d.caseSensitive key)) ⊆ pyKeys d.refs := by
    rw [pyKeys_pyDel]
    exact fun x hx => List.mem_of_mem_filter hx
  have hrefl1 : pyKeys d.data ⊆ pyKeys d.data := List.Subset.refl _
  have hrefl2 : pyKeys d.refs ⊆ pyKeys d.refs := List.Subset.refl _
  simp only [Doc.delItem]
  repeat' split
  all_goals first
    | exact ⟨hrefl1, hrefl2⟩
    | exact ⟨hsub1, hrefl2⟩
    | exact ⟨hsub1, hsub2⟩

/-- C9: the set of keys of the typed-value mapping and of the
tree-reference mapping are identical after construction and stay identical
through `set` (success or failure — `set` preserves the data keys exactly
and never touches the refs dictionary object) and through `delete` (a
missing key changes nothing; a valid present key is removed from both
maps); and no operation ever adds a key: `set` leaves the key set
unchanged and `delete` can only shrink both key sets. -/
theorem c9_key_invariant :
    (∀ (tree : PNode) (cs : Bool) (d : Doc),
        Doc.build tree cs = Except.ok d → pyKeys d.data = pyKeys d.refs) ∧
    (∀ (d : Doc) (key : String) (v : PyValue),
        pyKeys (Doc.setItem d key v).1.data = pyKeys d.data ∧
        (Doc.setItem d key v).1.refs = d.refs) ∧
    (∀ (d : Doc) (key : String),
        pyLookup (normalizeKey d.caseSensitive key) d.data = Option.none →
        (Doc.delItem d key).1 = d) ∧
    (∀ (d : Doc) (key : String) (v : PyValue) (ref : Ref) (rp : List Nat) (rule : PNode)
        (pd : String) (sibs : List PNode),
        pyKeys d.data = pyKeys d.refs →
        pyLookup (normalizeKey d.caseSensitive key) d.data = some v →
        pyLookup (normalizeKey d.caseSensitive key) d.refs = some ref →
        RulePathSpec d.tree ref rp →
        nodeAt d.tree rp = some rule →
        rp ≠ [] →
        nodeAt d.tree rp.dropLast = some (PNode.tree pd sibs) →
        rule ∈ sibs →
        pyKeys (Doc.delItem d key).1.data = pyKeys (Doc.delItem d key).1.refs) ∧
    (∀ (d : Doc) (key : String),
        pyKeys (Doc.delItem d key).1.data ⊆ pyKeys d.data ∧
        pyKeys (Doc.delItem d key).1.refs ⊆ pyKeys d.refs) := by
  refine ⟨?_, ?_, ?_, ?_, delItem_subsets⟩
  · intro tree cs d h
    unfold Doc.build at h
    cases hv : visitNode cs (([], []) : Interp) tree [] with
    | error e =>
      rw [hv] at h
      exact Except.noConfusion h
    | ok pair =>
      rw [hv] at h
      have h2 : Doc.mk tree pair.1 pair.2 cs = d := by injection h
      rw [← h2]
      exact visitNode_sync cs ([], []) tree [] pair hv rfl
  · intro d key v
    refine ⟨?_, setItem_refs d key v⟩
    cases hres : Doc.setItem d key v with
    | mk d' err =>
      cases err with
      | none => exact setItem_success_keys d key v d' hres
      | some e =>
        have := (setItem_err_maps d key v d' e hres).1
        rw [this]
  · intro d key h
    simp [Doc.delItem, h]
  · intro d key v ref rp rule pd sibs hsync hv hr hspec hrule hne hpar hmem
    rw [delItem_valid d key v ref rp rule pd sibs hv hr hspec hrule hne hpar hmem]
    simp only [pyKeys_pyDel]
    rw [hsync]

/-- C9, witness for `c9_key_invariant`: the example document's two maps
have identical key sets after construction. -/
theorem c9_key_invariant_witness : pyKeys exDoc.data = pyKeys exDoc.refs :=
  c9_key_invariant.1 exTree false exDoc exDoc_build
